import Mathlib

/-!
# gLabels text merge source (`src/merge-text.c`)

A shallow embedding of the delimiter-separated-text record source of gLabels.

* Characters are the values `getc` returns: a `Nat` standing for a byte
  (`0..255`); end of file is the end of the list of unread characters.
* A C string (`gchar *`) is the list of its bytes up to, not including, the
  first NUL.  A `GString` may hold NUL bytes; `cstr` takes its C-string view.
* A `FILE *` is `none` (the NULL handle) or `some cs`, `cs` being the
  characters not yet read.
* The delimiter is a `Nat`; the property `delim` of the object keeps it within
  `0..0x7F`, so that it is never equal to `EOF`.
* Field counts and indices (`gint`, `guint`) are natural numbers: a line is
  taken to hold fewer than `2^31` fields.
-/

namespace MergeText

/-! ## GLib string helpers used by `parse_field` -/

/-- GLib `g_ascii_isspace`: the bytes whose entry in GLib's `g_ascii_table`
carries `G_ASCII_SPACE`, which are TAB, LF, FF, CR and the space.  The vertical
tab (11) is not among them, unlike with C's `isspace`. -/
def g_ascii_isspace (c : Nat) : Bool :=
  c == 9 || c == 10 || c == 12 || c == 13 || c == 32

/-- GLib `g_strchug`: removes the leading white space of a string. -/
def g_strchug (s : List Nat) : List Nat :=
  s.dropWhile g_ascii_isspace

/-- GLib `g_strchomp`: removes the trailing white space of a string. -/
def g_strchomp (s : List Nat) : List Nat :=
  s.rdropWhile g_ascii_isspace

/-- GLib `g_strstrip(s)`, the expansion `g_strchomp (g_strchug (s))`. -/
def g_strstrip (s : List Nat) : List Nat :=
  g_strchomp (g_strchug s)

/-- The C-string view of a byte buffer: everything before the first NUL. -/
def cstr (s : List Nat) : List Nat :=
  s.takeWhile (fun c => c != 0)

/-! ## `parse_field` -/

/-- The states of the scanner of `parse_field`. -/
inductive FieldState where
  | NORMAL
  | NORMAL_ESCAPED
  | QUOTED
  | QUOTED_ESCAPED
  | QUOTED_QUOTE1
  deriving DecidableEq, Repr

/-- Pass 2 of `parse_field`: the `for` loop over the stripped text, `string`
being the output accumulated so far. -/
def parse_field_loop : FieldState → List Nat → List Nat → List Nat
  | _, string, [] => string
  | .NORMAL, string, c :: cs =>
    if c = 92 then parse_field_loop .NORMAL_ESCAPED string cs
    else if c = 34 then parse_field_loop .QUOTED string cs
    else if c = 13 then parse_field_loop .NORMAL string cs
    else parse_field_loop .NORMAL (string ++ [c]) cs
  | .NORMAL_ESCAPED, string, c :: cs =>
    if c = 110 then parse_field_loop .NORMAL (string ++ [10]) cs
    else if c = 116 then parse_field_loop .NORMAL (string ++ [9]) cs
    else parse_field_loop .NORMAL (string ++ [c]) cs
  | .QUOTED, string, c :: cs =>
    if c = 92 then parse_field_loop .QUOTED_ESCAPED string cs
    else if c = 34 then parse_field_loop .QUOTED_QUOTE1 string cs
    else if c = 13 then parse_field_loop .QUOTED string cs
    else parse_field_loop .QUOTED (string ++ [c]) cs
  | .QUOTED_ESCAPED, string, c :: cs =>
    if c = 110 then parse_field_loop .QUOTED (string ++ [10]) cs
    else if c = 116 then parse_field_loop .QUOTED (string ++ [9]) cs
    else parse_field_loop .QUOTED (string ++ [c]) cs
  | .QUOTED_QUOTE1, string, c :: cs =>
    if c = 34 then parse_field_loop .QUOTED (string ++ [c]) cs
    else if c = 13 then parse_field_loop .QUOTED string cs
    else parse_field_loop .NORMAL (string ++ [c]) cs

/-- The function `parse_field`: pass 1 strips the white space around the raw
field (a C string), pass 2 resolves quoting and escaping. -/
def parse_field (raw_field : List Nat) : List Nat :=
  let pass1_field := g_strstrip (cstr raw_field)
  parse_field_loop .NORMAL [] pass1_field

/-! ## `parse_line` -/

/-- The states of the scanner of `parse_line`, `DONE` excepted: reaching
`DONE` is the loop returning. -/
inductive LineState where
  | BEGIN
  | NORMAL
  | QUOTED
  | QUOTED_QUOTE1
  | NORMAL_ESCAPED
  | QUOTED_ESCAPED
  deriving DecidableEq, Repr

/-- The `while ( state != DONE )` loop of `parse_line`.  The last argument is
the unread part of the stream, each iteration reading one character of it
(`[]` reads as `EOF`); the result is the list of fields together with what is
left unread. -/
def parse_line_loop (delim : Nat) :
    LineState → List Nat → List (List Nat) → List Nat → List (List Nat) × List Nat
  | .BEGIN, _, list, [] => (list, [])
  | .BEGIN, string, list, c :: fp =>
    if c = delim then parse_line_loop delim .NORMAL string (list ++ [[]]) fp
    else if c = 34 then parse_line_loop delim .QUOTED (string ++ [c]) list fp
    else if c = 92 then parse_line_loop delim .NORMAL_ESCAPED (string ++ [c]) list fp
    else if c = 10 then (list ++ [[]], fp)
    else parse_line_loop delim .NORMAL (string ++ [c]) list fp
  | .NORMAL, string, list, [] => (list ++ [parse_field string], [])
  | .NORMAL, string, list, c :: fp =>
    if c = delim then parse_line_loop delim .NORMAL [] (list ++ [parse_field string]) fp
    else if c = 34 then parse_line_loop delim .QUOTED (string ++ [c]) list fp
    else if c = 92 then parse_line_loop delim .NORMAL_ESCAPED (string ++ [c]) list fp
    else if c = 10 then (list ++ [parse_field string], fp)
    else parse_line_loop delim .NORMAL (string ++ [c]) list fp
  | .QUOTED, string, list, [] => (list ++ [parse_field string], [])
  | .QUOTED, string, list, c :: fp =>
    if c = 34 then parse_line_loop delim .QUOTED_QUOTE1 (string ++ [c]) list fp
    else if c = 92 then parse_line_loop delim .QUOTED_ESCAPED (string ++ [c]) list fp
    else parse_line_loop delim .QUOTED (string ++ [c]) list fp
  | .QUOTED_QUOTE1, string, list, [] => (list ++ [parse_field string], [])
  | .QUOTED_QUOTE1, string, list, c :: fp =>
    if c = delim then parse_line_loop delim .NORMAL [] (list ++ [parse_field string]) fp
    else if c = 34 then parse_line_loop delim .QUOTED (string ++ [c]) list fp
    else if c = 10 then (list ++ [parse_field string], fp)
    else parse_line_loop delim .NORMAL (string ++ [c]) list fp
  | .NORMAL_ESCAPED, string, list, [] => (list ++ [parse_field string], [])
  | .NORMAL_ESCAPED, string, list, c :: fp =>
    parse_line_loop delim .NORMAL (string ++ [c]) list fp
  | .QUOTED_ESCAPED, string, list, [] => (list ++ [parse_field string], [])
  | .QUOTED_ESCAPED, string, list, c :: fp =>
    parse_line_loop delim .QUOTED (string ++ [c]) list fp

/-- The function `parse_line`: the fields of the next logical line of `fp`
and the stream after the call.  A NULL `fp` gives the empty list. -/
def parse_line (fp : Option (List Nat)) (delim : Nat) :
    List (List Nat) × Option (List Nat) :=
  match fp with
  | none => ([], none)
  | some cs =>
    let r := parse_line_loop delim .BEGIN [] [] cs
    (r.1, some r.2)

/-! ## The merge source object -/

/-- The digits of `n` in base ten, most significant first, in front of `acc`;
`fuel` bounds the number of digits produced. -/
def decimal_digits : Nat → Nat → List Nat → List Nat
  | 0, _, acc => acc
  | fuel + 1, n, acc =>
    if n < 10 then (48 + n) :: acc
    else decimal_digits fuel (n / 10) ((48 + n % 10) :: acc)

/-- The call `g_strdup_printf ("%d", n)` for a non-negative `n`. -/
def g_strdup_printf_d (n : Nat) : List Nat :=
  decimal_digits (n + 1) n []

/-- The type `glMergeField`: a key and a value. -/
structure glMergeField where
  key : List Nat
  value : List Nat
  deriving DecidableEq, Repr

/-- The type `glMergeRecord`: the selection flag and the fields in order. -/
structure glMergeRecord where
  select_flag : Bool
  field_list : List glMergeField
  deriving DecidableEq, Repr

/-- The object `glMergeText`: the private part `_glMergeTextPrivate` together
with the source selector `src` kept by the parent `glMerge` (what
`gl_merge_get_src` returns, `none` for NULL). -/
structure glMergeText where
  src : Option (List Nat)
  delim : Nat
  line1_has_keys : Bool
  fp : Option (List Nat)
  keys : List (List Nat)
  n_fields_max : Nat
  deriving DecidableEq, Repr

/-- What `gl_merge_text_open` finds outside the object: the characters waiting
on standard input and, for each path, the result of `fopen (path, "r")`
(`none` when the file cannot be opened). -/
structure Files where
  stdin : List Nat
  fopen : List Nat → Option (List Nat)

/-- The state `gl_merge_text_init` leaves: everything zero, no keys. -/
def gl_merge_text_init : glMergeText :=
  { src := none, delim := 0, line1_has_keys := false, fp := none, keys := [],
    n_fields_max := 0 }

/-- The function `key_from_index`: the key of the field at a zero based
index. -/
def key_from_index (merge_text : glMergeText) (i_field : Nat) : List Nat :=
  if merge_text.line1_has_keys then
    if h : i_field < merge_text.keys.length then merge_text.keys.get ⟨i_field, h⟩
    else g_strdup_printf_d (i_field + 1)
  else g_strdup_printf_d (i_field + 1)

/-- The function `clear_keys`. -/
def clear_keys (merge_text : glMergeText) : glMergeText :=
  { merge_text with keys := [] }

/-- The function `gl_merge_text_get_key_list`. -/
def gl_merge_text_get_key_list (merge_text : glMergeText) : List (List Nat) :=
  let n_fields :=
    if merge_text.line1_has_keys then merge_text.keys.length
    else merge_text.n_fields_max
  (List.range n_fields).map (fun i_field => key_from_index merge_text i_field)

/-- The function `gl_merge_text_get_primary_key`. -/
def gl_merge_text_get_primary_key (merge_text : glMergeText) : List Nat :=
  key_from_index merge_text 0

/-- The stream `gl_merge_text_open` acquires for a selector: standard input
for the one-character selector `-`, the result of `fopen` otherwise. -/
def open_stream (files : Files) (src : List Nat) : Option (List Nat) :=
  if src = [45] then some files.stdin else files.fopen src

/-- The function `gl_merge_text_open`. -/
def gl_merge_text_open (files : Files) (merge_text : glMergeText) : glMergeText :=
  match merge_text.src with
  | none => merge_text
  | some src =>
    let m1 := { merge_text with fp := open_stream files src }
    let m2 := { clear_keys m1 with n_fields_max := 0 }
    if m2.line1_has_keys then
      let line1 := parse_line m2.fp m2.delim
      { m2 with fp := line1.2, keys := m2.keys ++ line1.1 }
    else m2

/-- The function `gl_merge_text_close`. -/
def gl_merge_text_close (merge_text : glMergeText) : glMergeText :=
  match merge_text.fp with
  | none => merge_text
  | some _ => { merge_text with fp := none }

/-- The `for` loop of `gl_merge_text_get_record` over the fields `p`: the
field list built so far and the index `i_field` go in, and come out at the end
of the list. -/
def get_record_loop (merge_text : glMergeText) :
    List (List Nat) → Nat → List glMergeField → List glMergeField × Nat
  | [], i_field, field_list => (field_list, i_field)
  | data :: p, i_field, field_list =>
    let field : glMergeField := { key := key_from_index merge_text i_field, value := data }
    get_record_loop merge_text p (i_field + 1) (field_list ++ [field])

/-- The function `gl_merge_text_get_record`: the next record, `none` when no
records are left, and the object after the call. -/
def gl_merge_text_get_record (merge_text : glMergeText) :
    Option glMergeRecord × glMergeText :=
  let line := parse_line merge_text.fp merge_text.delim
  let m1 := { merge_text with fp := line.2 }
  match line.1 with
  | [] => (none, m1)
  | data :: p =>
    let r := get_record_loop merge_text (data :: p) 0 []
    let record : glMergeRecord := { select_flag := true, field_list := r.1 }
    if r.2 > m1.n_fields_max then (some record, { m1 with n_fields_max := r.2 })
    else (some record, m1)

/-- The function `gl_merge_text_copy`, on the fields of `glMergeText`. -/
def gl_merge_text_copy (dst_merge src_merge : glMergeText) : glMergeText :=
  { dst_merge with
    delim := src_merge.delim
    line1_has_keys := src_merge.line1_has_keys
    keys := dst_merge.keys ++ src_merge.keys
    n_fields_max := src_merge.n_fields_max }

/-- Repeated `gl_merge_text_get_record`: the results of `n` successive calls
and the object after the last one. -/
def get_records : Nat → glMergeText → List (Option glMergeRecord) × glMergeText
  | 0, merge_text => ([], merge_text)
  | n + 1, merge_text =>
    let r := gl_merge_text_get_record merge_text
    let rs := get_records n r.2
    (r.1 :: rs.1, rs.2)

/-- The values of the fields of a record, in order. -/
def record_values (record : glMergeRecord) : List (List Nat) :=
  record.field_list.map (fun f => f.value)

/-- The keys of the fields of a record, in order. -/
def record_keys (record : glMergeRecord) : List (List Nat) :=
  record.field_list.map (fun f => f.key)

/-- The white space of a reading that follows C's `isspace`: space, TAB, LF,
VT, FF and CR. -/
def isspace_c (c : Nat) : Bool :=
  c == 32 || c == 9 || c == 10 || c == 11 || c == 12 || c == 13

/-- Trimming the white space of `isspace_c` from both ends of a string. -/
def trim_isspace_c (s : List Nat) : List Nat :=
  (s.dropWhile isspace_c).rdropWhile isspace_c

/-- A string with each double-quote doubled, as a writer of quoted fields
produces it. -/
def double_quotes : List Nat → List Nat
  | [] => []
  | c :: s => if c = 34 then 34 :: 34 :: double_quotes s else c :: double_quotes s

/-- The character an escaping backslash followed by `c` stands for: LF for
`n`, TAB for `t`, and `c` itself otherwise. -/
def escaped_char (c : Nat) : Nat :=
  if c = 110 then 10 else if c = 116 then 9 else c

/-- The stream made of the given rows, each followed by LF. -/
def lines_stream : List (List Nat) → List Nat
  | [] => []
  | r :: rs => r ++ 10 :: lines_stream rs

/-- The number of fields of each result of `get_records`, a call that
returned no record counting for zero. -/
def field_counts (rs : List (Option glMergeRecord)) : List Nat :=
  rs.map (fun r => match r with
    | none => 0
    | some record => record.field_list.length)

/-- The two objects after `gl_merge_text_copy (dst_merge, src_merge)` on two
distinct objects: the function assigns to fields of `dst_merge` only, and
`src_merge` is only read. -/
def gl_merge_text_copy_objects (dst_merge src_merge : glMergeText) :
    glMergeText × glMergeText :=
  (gl_merge_text_copy dst_merge src_merge, src_merge)

/-- The state of the scanner of `parse_field` after one character: the
`state = ...` assignments of pass 2, without the output. -/
def field_next_state : FieldState → Nat → FieldState
  | .NORMAL, c => if c = 92 then .NORMAL_ESCAPED else if c = 34 then .QUOTED else .NORMAL
  | .NORMAL_ESCAPED, _ => .NORMAL
  | .QUOTED, c =>
    if c = 92 then .QUOTED_ESCAPED else if c = 34 then .QUOTED_QUOTE1 else .QUOTED
  | .QUOTED_ESCAPED, _ => .QUOTED
  | .QUOTED_QUOTE1, c => if c = 34 then .QUOTED else if c = 13 then .QUOTED else .NORMAL

/-- The state of the scanner of `parse_field` after the characters of `a`,
started in the state `st`. -/
def field_state_after (st : FieldState) (a : List Nat) : FieldState :=
  a.foldl field_next_state st

/-! ## `parse_line`, one iteration at a time -/

/-- The `enum` of the states of `parse_line`, `DONE` included. -/
inductive LineStateDone where
  | BEGIN
  | NORMAL
  | QUOTED
  | QUOTED_QUOTE1
  | NORMAL_ESCAPED
  | QUOTED_ESCAPED
  | DONE
  deriving DecidableEq, Repr

/-- The variables of `parse_line` inside its loop, together with the unread
characters of the stream, the number of calls of `getc` made so far, and
whether `g_assert_not_reached` was hit. -/
structure LineVars where
  state : LineStateDone
  string : List Nat
  list : List (List Nat)
  fp : List Nat
  reads : Nat
  assert_hit : Bool
  deriving DecidableEq, Repr

/-- One iteration of the `while ( state != DONE )` loop of `parse_line`:
`c = getc (fp)` (`none` for `EOF`, which leaves the stream as it is) and the
`switch (state)`. -/
def parse_line_iteration (delim : Nat) (v : LineVars) : LineVars :=
  let c : Option Nat := v.fp.head?
  let v1 : LineVars := { v with fp := v.fp.tail, reads := v.reads + 1 }
  match v.state with
  | .BEGIN =>
    if c = some delim then { v1 with list := v1.list ++ [[]], state := .NORMAL }
    else if c = some 34 then { v1 with string := v1.string ++ [34], state := .QUOTED }
    else if c = some 92 then { v1 with string := v1.string ++ [92], state := .NORMAL_ESCAPED }
    else if c = some 10 then { v1 with list := v1.list ++ [[]], state := .DONE }
    else match c with
      | none => { v1 with state := .DONE }
      | some x => { v1 with string := v1.string ++ [x], state := .NORMAL }
  | .NORMAL =>
    if c = some delim then
      { v1 with list := v1.list ++ [parse_field v1.string], string := [], state := .NORMAL }
    else if c = some 34 then { v1 with string := v1.string ++ [34], state := .QUOTED }
    else if c = some 92 then { v1 with string := v1.string ++ [92], state := .NORMAL_ESCAPED }
    else if c = some 10 then
      { v1 with list := v1.list ++ [parse_field v1.string], state := .DONE }
    else match c with
      | none => { v1 with list := v1.list ++ [parse_field v1.string], state := .DONE }
      | some x => { v1 with string := v1.string ++ [x], state := .NORMAL }
  | .QUOTED =>
    if c = some 34 then { v1 with string := v1.string ++ [34], state := .QUOTED_QUOTE1 }
    else if c = some 92 then { v1 with string := v1.string ++ [92], state := .QUOTED_ESCAPED }
    else match c with
      | none => { v1 with list := v1.list ++ [parse_field v1.string], state := .DONE }
      | some x => { v1 with string := v1.string ++ [x] }
  | .QUOTED_QUOTE1 =>
    if c = some delim then
      { v1 with list := v1.list ++ [parse_field v1.string], string := [], state := .NORMAL }
    else if c = some 34 then { v1 with string := v1.string ++ [34], state := .QUOTED }
    else if c = some 10 then
      { v1 with list := v1.list ++ [parse_field v1.string], state := .DONE }
    else match c with
      | none => { v1 with list := v1.list ++ [parse_field v1.string], state := .DONE }
      | some x => { v1 with string := v1.string ++ [x], state := .NORMAL }
  | .NORMAL_ESCAPED =>
    match c with
    | none => { v1 with list := v1.list ++ [parse_field v1.string], state := .DONE }
    | some x => { v1 with string := v1.string ++ [x], state := .NORMAL }
  | .QUOTED_ESCAPED =>
    match c with
    | none => { v1 with list := v1.list ++ [parse_field v1.string], state := .DONE }
    | some x => { v1 with string := v1.string ++ [x], state := .QUOTED }
  | .DONE => { v1 with assert_hit := true }

/-- The loop `while ( state != DONE )` of `parse_line` run for at most `fuel`
iterations: the variables when the loop is left, `none` when `fuel`
iterations do not reach `DONE`. -/
def parse_line_while (delim : Nat) : Nat → LineVars → Option LineVars
  | 0, v => if v.state = .DONE then some v else none
  | fuel + 1, v =>
    if v.state = .DONE then some v
    else parse_line_while delim fuel (parse_line_iteration delim v)

/-- The variables of `parse_line` on entering the loop, for a stream that is
not NULL. -/
def parse_line_entry (fp : List Nat) : LineVars :=
  { state := .BEGIN, string := [], list := [], fp := fp, reads := 0, assert_hit := false }

/-- The state of `parse_line_loop` as a state of the `enum`. -/
def LineState.toDone : LineState → LineStateDone
  | .BEGIN => .BEGIN
  | .NORMAL => .NORMAL
  | .QUOTED => .QUOTED
  | .QUOTED_QUOTE1 => .QUOTED_QUOTE1
  | .NORMAL_ESCAPED => .NORMAL_ESCAPED
  | .QUOTED_ESCAPED => .QUOTED_ESCAPED

/-- The number a string of decimal digits stands for. -/
def decimal_value (l : List Nat) : Nat :=
  l.foldl (fun a c => 10 * a + (c - 48)) 0

/-- The list of pieces with the character `x` added at the end of the last
piece. -/
def snoc_last (x : Nat) : List (List Nat) → List (List Nat)
  | [] => []
  | [p] => [p ++ [x]]
  | p :: q :: ps => p :: snoc_last x (q :: ps)

end MergeText

/-!
# POSTNET barcode (`glabels2/src/bc-postnet.c`)

The input `digits` is a C string, given as the list of its bytes (a NUL, were
there one, ends it).  The `gdouble` coordinates are rationals: every value the
module computes is a multiple of `0.25` far below `2^53`, which `gdouble`
arithmetic gives exactly.
-/

namespace Postnet

/-- The table `symbols`, the characters `0` and `1` being 48 and 49. -/
def symbols : List (List Nat) :=
  [ [49, 49, 48, 48, 48],
    [48, 48, 48, 49, 49],
    [48, 48, 49, 48, 49],
    [48, 48, 49, 49, 48],
    [48, 49, 48, 48, 49],
    [48, 49, 48, 49, 48],
    [48, 49, 49, 48, 48],
    [49, 48, 48, 48, 49],
    [49, 48, 48, 49, 48],
    [49, 48, 49, 48, 48] ]

/-- The string `frame_symbol`. -/
def frame_symbol : List Nat := [49]

/-- The macro `POSTNET_BAR_WIDTH`. -/
def POSTNET_BAR_WIDTH : ℚ := 1.25

/-- The macro `POSTNET_FULLBAR_HEIGHT`. -/
def POSTNET_FULLBAR_HEIGHT : ℚ := 9.00

/-- The macro `POSTNET_HALFBAR_HEIGHT`. -/
def POSTNET_HALFBAR_HEIGHT : ℚ := 3.50

/-- The macro `POSTNET_BAR_PITCH`. -/
def POSTNET_BAR_PITCH : ℚ := 3.25

/-- The macro `POSTNET_HORIZ_MARGIN`. -/
def POSTNET_HORIZ_MARGIN : ℚ := 9.00

/-- The macro `POSTNET_VERT_MARGIN`. -/
def POSTNET_VERT_MARGIN : ℚ := 3.00

/-- C `isdigit`: the characters `0` to `9`. -/
def isdigit (c : Nat) : Bool :=
  decide (48 ≤ c) && decide (c ≤ 57)

/-- The `for` loop of `postnet_code` over the characters at `p`: `len`, `sum`
and `code` go in and come out when the string ends or `len` reaches 11. -/
def postnet_code_loop : List Nat → Nat → Nat → List Nat → Nat × Nat × List Nat
  | [], len, sum, code => (len, sum, code)
  | c :: p, len, sum, code =>
    if c ≠ 0 ∧ len < 11 then
      if isdigit c then
        postnet_code_loop p (len + 1) (sum + (c - 48)) (code ++ symbols.getD (c - 48) [])
      else postnet_code_loop p len sum code
    else (len, sum, code)

/-- The value of `len` after the loop of `postnet_code`. -/
def postnet_len (digits : List Nat) : Nat :=
  (postnet_code_loop digits 0 0 frame_symbol).1

/-- Whether `postnet_code` issues its warning on the length. -/
def postnet_length_warning (digits : List Nat) : Bool :=
  postnet_len digits != 5 && postnet_len digits != 9 && postnet_len digits != 11

/-- The correction character of `postnet_code`: the value
`d = (10 - (sum % 10)) % 10` after the loop. -/
def postnet_correction (digits : List Nat) : Nat :=
  (10 - (postnet_code_loop digits 0 0 frame_symbol).2.1 % 10) % 10

/-- The function `postnet_code`. -/
def postnet_code (digits : List Nat) : List Nat :=
  let code := (postnet_code_loop digits 0 0 frame_symbol).2.2
  let d := postnet_correction digits
  (code ++ symbols.getD d []) ++ frame_symbol

/-- The type `glBarcodeLine`. -/
structure glBarcodeLine where
  x : ℚ
  y : ℚ
  length : ℚ
  width : ℚ
  deriving DecidableEq, Repr

/-- The type `glBarcode`, as far as `gl_barcode_postnet_new` fills it (`chars`
is left NULL). -/
structure glBarcode where
  lines : List glBarcodeLine
  width : ℚ
  height : ℚ
  deriving DecidableEq, Repr

/-- The `for` loop of `gl_barcode_postnet_new` over the code string at `p`:
the current `x` and the lines appended so far go in and come out. -/
def postnet_lines_loop : List Nat → ℚ → List glBarcodeLine → List glBarcodeLine × ℚ
  | [], x, lines => (lines, x)
  | c :: p, x, lines =>
    if c = 0 then (lines, x)
    else
      let line : glBarcodeLine :=
        if c = 48 then
          { x := x
            y := POSTNET_VERT_MARGIN + (POSTNET_FULLBAR_HEIGHT - POSTNET_HALFBAR_HEIGHT)
            length := POSTNET_HALFBAR_HEIGHT
            width := POSTNET_BAR_WIDTH }
        else
          { x := x
            y := POSTNET_VERT_MARGIN
            length := POSTNET_FULLBAR_HEIGHT
            width := POSTNET_BAR_WIDTH }
      postnet_lines_loop p (x + POSTNET_BAR_PITCH) (lines ++ [line])

/-- The function `gl_barcode_postnet_new`; `postnet_code` never returns NULL,
so a barcode always comes back. -/
def gl_barcode_postnet_new (digits : List Nat) : Option glBarcode :=
  let code := postnet_code digits
  let r := postnet_lines_loop code POSTNET_HORIZ_MARGIN []
  some
    { lines := r.1
      width := r.2 + POSTNET_HORIZ_MARGIN
      height := POSTNET_FULLBAR_HEIGHT + 2 * POSTNET_VERT_MARGIN }

/-- The values of the first at most `n` decimal digits of a C string, the other
characters being skipped. -/
def first_digits (n : Nat) (digits : List Nat) : List Nat :=
  ((((digits.takeWhile (fun c => c != 0)).filter isdigit).take n).map (fun c => c - 48))

/-- The symbols of a list of digit values, one after the other. -/
def digit_symbols (ds : List Nat) : List Nat :=
  (ds.map (fun d => symbols.getD d [])).flatten

/-- The line the loop of `gl_barcode_postnet_new` makes for the character `c`
of the code string when the current abscissa is `x`. -/
def postnet_line (c : Nat) (x : ℚ) : glBarcodeLine :=
  if c = 48 then
    { x := x
      y := POSTNET_VERT_MARGIN + (POSTNET_FULLBAR_HEIGHT - POSTNET_HALFBAR_HEIGHT)
      length := POSTNET_HALFBAR_HEIGHT
      width := POSTNET_BAR_WIDTH }
  else
    { x := x
      y := POSTNET_VERT_MARGIN
      length := POSTNET_FULLBAR_HEIGHT
      width := POSTNET_BAR_WIDTH }

/-- The lines of the characters of `p`, the first at the abscissa `x` and each
next one a pitch further. -/
def postnet_lines_from : List Nat → ℚ → List glBarcodeLine
  | [], _ => []
  | c :: p, x => postnet_line c x :: postnet_lines_from p (x + POSTNET_BAR_PITCH)

end Postnet

namespace MergeText

/-- Removing the leading white space of `isspace_c` from a string. -/
def lstrip_isspace_c (s : List Nat) : List Nat :=
  s.dropWhile isspace_c

/-- Removing the trailing white space of `isspace_c` from a string. -/
def rstrip_isspace_c (s : List Nat) : List Nat :=
  s.rdropWhile isspace_c

/-! ## Lemmas on the normalizer -/

theorem cstr_eq_self {s : List Nat} (h : ∀ c ∈ s, c ≠ 0) : cstr s = s := by
  unfold cstr
  rw [List.takeWhile_eq_self_iff]
  intro c hc
  simpa using h c hc

theorem mem_of_mem_g_strstrip {s : List Nat} {c : Nat} (h : c ∈ g_strstrip s) : c ∈ s := by
  unfold g_strstrip g_strchomp g_strchug at h
  have h1 : c ∈ s.dropWhile g_ascii_isspace :=
    (List.rdropWhile_prefix g_ascii_isspace _).subset h
  exact (List.dropWhile_suffix g_ascii_isspace).subset h1

theorem parse_field_loop_normal_plain (s : List Nat) :
    ∀ acc, (∀ c ∈ s, c ≠ 92 ∧ c ≠ 34 ∧ c ≠ 13) →
      parse_field_loop .NORMAL acc s = acc ++ s := by
  induction s with
  | nil => intro acc _; simp [parse_field_loop]
  | cons c cs ih =>
    intro acc h
    have hc := h c (List.mem_cons_self _ _)
    have hcs := ih (acc ++ [c]) (fun x hx => h x (List.mem_cons_of_mem _ hx))
    simp [parse_field_loop, hc.1, hc.2.1, hc.2.2, hcs]

theorem parse_field_plain {s : List Nat}
    (h : ∀ c ∈ s, c ≠ 34 ∧ c ≠ 92 ∧ c ≠ 13 ∧ c ≠ 0) : parse_field s = g_strstrip s := by
  unfold parse_field
  rw [cstr_eq_self (fun c hc => (h c hc).2.2.2)]
  have := parse_field_loop_normal_plain (g_strstrip s) []
    (fun c hc => by
      have hm := h c (mem_of_mem_g_strstrip hc)
      exact ⟨hm.2.1, hm.1, hm.2.2.1⟩)
  simpa using this

theorem dropWhile_append_cons_neg (p : Nat → Bool) (b : Nat) (w : List Nat) (hb : p b = false)
    (u : List Nat) : (u ++ b :: w).dropWhile p = u.dropWhile p ++ b :: w := by
  induction u with
  | nil => simp [List.dropWhile, hb]
  | cons a u ih =>
    by_cases ha : p a = true
    · simp [List.dropWhile, ha, ih]
    · simp [List.dropWhile, ha]

theorem rdropWhile_append_of_ne_nil (p : Nat → Bool) (a b : List Nat)
    (hb : b.rdropWhile p ≠ []) : (a ++ b).rdropWhile p = a ++ b.rdropWhile p := by
  induction b using List.reverseRecOn with
  | nil => simp at hb
  | append_singleton b x ih =>
    by_cases hx : p x = true
    · rw [List.rdropWhile_concat_pos _ _ _ hx] at hb ⊢
      rw [← List.append_assoc, List.rdropWhile_concat_pos _ _ _ hx]
      exact ih hb
    · rw [List.rdropWhile_concat_neg _ _ _ hx, ← List.append_assoc,
        List.rdropWhile_concat_neg _ _ _ hx]

theorem rdropWhile_append_of_all (p : Nat → Bool) (a b : List Nat)
    (hb : ∀ x ∈ b, p x = true) : (a ++ b).rdropWhile p = a.rdropWhile p := by
  induction b using List.reverseRecOn with
  | nil => simp
  | append_singleton b x ih =>
    have hx : p x = true := hb x (by simp)
    rw [← List.append_assoc, List.rdropWhile_concat_pos _ _ _ hx]
    exact ih (fun y hy => hb y (by simp [hy]))

theorem g_strchomp_escape (c : Nat) (v : List Nat)
    (hcv : g_ascii_isspace c = false ∨ ∃ x ∈ v, g_ascii_isspace x = false) :
    g_strchomp (92 :: c :: v) = 92 :: c :: g_strchomp v := by
  unfold g_strchomp
  by_cases hv : ∀ x ∈ v, g_ascii_isspace x = true
  · have hc : g_ascii_isspace c = false := by
      rcases hcv with h | ⟨x, hx, hx2⟩
      · exact h
      · rw [hv x hx] at hx2; exact absurd hx2 (by decide)
    have h1 := rdropWhile_append_of_all g_ascii_isspace [92, c] v hv
    have h2 : List.rdropWhile g_ascii_isspace ([92] ++ [c]) = [92] ++ [c] :=
      List.rdropWhile_concat_neg _ _ _ (by simp [hc])
    have h3 : List.rdropWhile g_ascii_isspace v = [] :=
      List.rdropWhile_eq_nil_iff.2 hv
    simp only [List.cons_append, List.nil_append] at h1 h2
    rw [h1, h2, h3]
  · have h3 : List.rdropWhile g_ascii_isspace v ≠ [] := by
      intro h
      exact hv (List.rdropWhile_eq_nil_iff.1 h)
    have h1 := rdropWhile_append_of_ne_nil g_ascii_isspace [92, c] v h3
    simpa using h1

theorem g_strstrip_escape (u v : List Nat) (c : Nat)
    (hcv : g_ascii_isspace c = false ∨ ∃ x ∈ v, g_ascii_isspace x = false) :
    g_strstrip (u ++ 92 :: c :: v) = g_strchug u ++ 92 :: c :: g_strchomp v := by
  unfold g_strstrip
  have h1 : g_strchug (u ++ 92 :: c :: v) = g_strchug u ++ 92 :: c :: v := by
    unfold g_strchug
    exact dropWhile_append_cons_neg _ 92 _ (by decide) u
  rw [h1]
  have h2 := g_strchomp_escape c v hcv
  have h3 : List.rdropWhile g_ascii_isspace (92 :: c :: v) ≠ [] := by
    unfold g_strchomp at h2
    rw [h2]; simp
  have h4 := rdropWhile_append_of_ne_nil g_ascii_isspace (g_strchug u) (92 :: c :: v) h3
  unfold g_strchomp at h2 ⊢
  rw [h4, h2]

theorem parse_field_loop_normal_append (a b : List Nat) :
    ∀ acc, (∀ c ∈ a, c ≠ 92 ∧ c ≠ 34 ∧ c ≠ 13) →
      parse_field_loop .NORMAL acc (a ++ b) = parse_field_loop .NORMAL (acc ++ a) b := by
  induction a with
  | nil => intro acc _; simp
  | cons c cs ih =>
    intro acc h
    have hc := h c (List.mem_cons_self _ _)
    have hcs := ih (acc ++ [c]) (fun x hx => h x (List.mem_cons_of_mem _ hx))
    cases b <;> simp_all [parse_field_loop]

theorem parse_field_loop_quoted_append (a b : List Nat) :
    ∀ acc, (∀ c ∈ a, c ≠ 92 ∧ c ≠ 34 ∧ c ≠ 13) →
      parse_field_loop .QUOTED acc (a ++ b) = parse_field_loop .QUOTED (acc ++ a) b := by
  induction a with
  | nil => intro acc _; simp
  | cons c cs ih =>
    intro acc h
    have hc := h c (List.mem_cons_self _ _)
    have hcs := ih (acc ++ [c]) (fun x hx => h x (List.mem_cons_of_mem _ hx))
    cases b <;> simp_all [parse_field_loop]

theorem parse_field_loop_normal_backslash (acc cs : List Nat) :
    parse_field_loop .NORMAL acc (92 :: cs) = parse_field_loop .NORMAL_ESCAPED acc cs := by
  simp [parse_field_loop]

theorem parse_field_loop_quoted_backslash (acc cs : List Nat) :
    parse_field_loop .QUOTED acc (92 :: cs) = parse_field_loop .QUOTED_ESCAPED acc cs := by
  simp [parse_field_loop]

theorem parse_field_loop_normal_quote (acc cs : List Nat) :
    parse_field_loop .NORMAL acc (34 :: cs) = parse_field_loop .QUOTED acc cs := by
  simp [parse_field_loop]

theorem parse_field_loop_normal_escaped (acc : List Nat) (c : Nat) (cs : List Nat) :
    parse_field_loop .NORMAL_ESCAPED acc (c :: cs) =
      parse_field_loop .NORMAL (acc ++ [escaped_char c]) cs := by
  unfold escaped_char
  simp only [parse_field_loop]
  split_ifs <;> rfl

theorem parse_field_loop_quoted_escaped (acc : List Nat) (c : Nat) (cs : List Nat) :
    parse_field_loop .QUOTED_ESCAPED acc (c :: cs) =
      parse_field_loop .QUOTED (acc ++ [escaped_char c]) cs := by
  unfold escaped_char
  simp only [parse_field_loop]
  split_ifs <;> rfl

/-! ## Lemmas on splitting -/

theorem mem_of_mem_splitOn (d : Nat) (r : List Nat) :
    ∀ p ∈ r.splitOn d, ∀ c ∈ p, c ∈ r := by
  induction r with
  | nil => intro p hp c hc; simp [List.splitOn, List.splitOnP_nil] at hp; subst hp; simp at hc
  | cons x xs ih =>
    intro p hp c hc
    rw [List.splitOn, List.splitOnP_cons] at hp
    by_cases hx : (x == d) = true
    · simp only [hx, if_true, List.mem_cons] at hp
      rcases hp with rfl | hp
      · simp at hc
      · exact List.mem_cons_of_mem _ (ih p hp c hc)
    · simp only [hx] at hp
      have hne := List.splitOnP_ne_nil (fun a => a == d) xs
      cases hs : List.splitOnP (fun a => a == d) xs with
      | nil => exact absurd hs hne
      | cons q qs =>
        rw [hs] at hp
        simp only [List.modifyHead_cons, List.mem_cons, Bool.false_eq_true, if_false] at hp
        rcases hp with rfl | hp
        · rcases List.mem_cons.1 hc with rfl | hc
          · exact List.mem_cons_self _ _
          · exact List.mem_cons_of_mem _ (ih q (by rw [List.splitOn, hs]; simp) c hc)
        · exact List.mem_cons_of_mem _ (ih p (by rw [List.splitOn, hs]; simp [hp]) c hc)

theorem length_splitOn (d : Nat) (r : List Nat) :
    (r.splitOn d).length = r.count d + 1 := by
  induction r with
  | nil => simp [List.splitOn, List.splitOnP_nil]
  | cons x xs ih =>
    rw [List.splitOn, List.splitOnP_cons]
    by_cases hx : x = d
    · subst hx
      simp [List.splitOn] at ih
      simp [ih]
    · have hx2 : (x == d) = false := by simpa using hx
      simp [List.splitOn] at ih
      simp [hx2, ih, List.count_cons, hx]

/-! ## Lemmas on the tokenizer -/

theorem parse_line_loop_normal_row (d : Nat) (rest : List Nat) (hd : d ≠ 10) (r : List Nat) :
    ∀ string list, (∀ c ∈ r, c ≠ 34 ∧ c ≠ 92 ∧ c ≠ 10) →
      parse_line_loop d .NORMAL string list (r ++ 10 :: rest) =
        (list ++ ((r.splitOn d).modifyHead (fun p => string ++ p)).map parse_field, rest) := by
  induction r with
  | nil =>
    intro string list _
    have h10 : ¬ (10 = d) := fun h => hd h.symm
    simp [parse_line_loop, h10, List.splitOn, List.splitOnP_nil]
  | cons x xs ih =>
    intro string list h
    have hx := h x (List.mem_cons_self _ _)
    have hxs : ∀ c ∈ xs, c ≠ 34 ∧ c ≠ 92 ∧ c ≠ 10 := fun c hc => h c (List.mem_cons_of_mem _ hc)
    rw [List.splitOn, List.splitOnP_cons]
    by_cases hxd : x = d
    · subst hxd
      have := ih [] (list ++ [parse_field string]) hxs
      simp [List.splitOn] at this
      simp [parse_line_loop, this]
      have hid : (fun p : List Nat => p) = id := rfl
      simp [hid]
    · have hx2 : (x == d) = false := by simpa using hxd
      have := ih (string ++ [x]) list hxs
      simp [List.splitOn] at this
      simp [parse_line_loop, hxd, hx.1, hx.2.1, hx.2.2, this, hx2]
      rfl

theorem parse_line_loop_begin_row (d : Nat) (rest : List Nat) (hd : d ≠ 10) (r : List Nat)
    (h : ∀ c ∈ r, c ≠ 34 ∧ c ≠ 92 ∧ c ≠ 10) :
    parse_line_loop d .BEGIN [] [] (r ++ 10 :: rest) = ((r.splitOn d).map parse_field, rest) := by
  have h10 : ¬ (10 = d) := fun h => hd h.symm
  have hpf : parse_field [] = [] := by decide
  cases r with
  | nil => simp [parse_line_loop, h10, List.splitOn, List.splitOnP_nil, hpf]
  | cons x xs =>
    have hx := h x (List.mem_cons_self _ _)
    have hxs : ∀ c ∈ xs, c ≠ 34 ∧ c ≠ 92 ∧ c ≠ 10 := fun c hc => h c (List.mem_cons_of_mem _ hc)
    rw [List.splitOn, List.splitOnP_cons]
    by_cases hxd : x = d
    · subst hxd
      have := parse_line_loop_normal_row x rest hd xs [] [[]] hxs
      simp [List.splitOn] at this
      have hid : (fun p : List Nat => p) = id := rfl
      simp [hid] at this
      simp [parse_line_loop, this, hpf]
    · have hx2 : (x == d) = false := by simpa using hxd
      have := parse_line_loop_normal_row d rest hd xs [x] [] hxs
      simp [List.splitOn] at this
      simp [parse_line_loop, hxd, hx.1, hx.2.1, hx.2.2, this, hx2]

theorem map_parse_field_splitOn (d : Nat) (r : List Nat)
    (hr : ∀ c ∈ r, c ≠ 34 ∧ c ≠ 92 ∧ c ≠ 13 ∧ c ≠ 10 ∧ c ≠ 0) :
    (r.splitOn d).map parse_field = (r.splitOn d).map g_strstrip := by
  apply List.map_congr_left
  intro p hp
  apply parse_field_plain
  intro c hc
  have := hr c (mem_of_mem_splitOn d r p hp c hc)
  exact ⟨this.1, this.2.1, this.2.2.1, this.2.2.2.2⟩

theorem parse_line_row (d : Nat) (r rest : List Nat) (hd : d ≠ 10)
    (hr : ∀ c ∈ r, c ≠ 34 ∧ c ≠ 92 ∧ c ≠ 13 ∧ c ≠ 10 ∧ c ≠ 0) :
    parse_line (some (r ++ 10 :: rest)) d = ((r.splitOn d).map g_strstrip, some rest) := by
  unfold parse_line
  simp only
  rw [parse_line_loop_begin_row d rest hd r
    (fun c hc => ⟨(hr c hc).1, (hr c hc).2.1, (hr c hc).2.2.2.1⟩),
    map_parse_field_splitOn d r hr]

theorem parse_line_loop_list (d : Nat) (fp : List Nat) :
    ∀ st string list,
      parse_line_loop d st string list fp =
        (list ++ (parse_line_loop d st string [] fp).1,
          (parse_line_loop d st string [] fp).2) := by
  induction fp with
  | nil => intro st string list; cases st <;> simp [parse_line_loop]
  | cons c cs ih =>
    intro st string list
    cases st <;> simp only [parse_line_loop] <;> (try split_ifs) <;>
      first
      | (rw [ih _ _ (list ++ _), ih _ _ ([] ++ _)]; simp)
      | rw [ih _ _ list]
      | simp

theorem mem_double_quotes {s : List Nat} {c : Nat} (h : c ∈ double_quotes s) :
    c = 34 ∨ c ∈ s := by
  induction s with
  | nil => simp [double_quotes] at h
  | cons x xs ih =>
    unfold double_quotes at h
    split_ifs at h with hx
    · simp only [List.mem_cons] at h
      rcases h with h | h | h
      · exact Or.inl h
      · exact Or.inl h
      · rcases ih h with h | h
        · exact Or.inl h
        · exact Or.inr (List.mem_cons_of_mem _ h)
    · rcases List.mem_cons.1 h with h | h
      · exact Or.inr (h ▸ List.mem_cons_self _ _)
      · rcases ih h with h | h
        · exact Or.inl h
        · exact Or.inr (List.mem_cons_of_mem _ h)

theorem parse_line_loop_quoted (d : Nat) (hd : d ≠ 34) (tail : List Nat) (s : List Nat) :
    ∀ string list, (∀ c ∈ s, c ≠ 92) →
      parse_line_loop d .QUOTED string list (double_quotes s ++ 34 :: tail) =
        parse_line_loop d .QUOTED_QUOTE1 (string ++ double_quotes s ++ [34]) list tail := by
  induction s with
  | nil => intro string list _; simp [parse_line_loop, double_quotes]
  | cons x xs ih =>
    intro string list h
    have hx := h x (List.mem_cons_self _ _)
    have hxs : ∀ c ∈ xs, c ≠ 92 := fun c hc => h c (List.mem_cons_of_mem _ hc)
    have h34 : ¬ (34 = d) := fun h => hd h.symm
    by_cases hq : x = 34
    · subst hq
      simp [double_quotes, parse_line_loop, h34, ih _ _ hxs]
    · simp [double_quotes, parse_line_loop, hq, hx, ih _ _ hxs]

theorem parse_field_loop_quoted (s : List Nat) :
    ∀ acc, (∀ c ∈ s, c ≠ 92 ∧ c ≠ 13) →
      parse_field_loop .QUOTED acc (double_quotes s ++ [34]) = acc ++ s := by
  induction s with
  | nil => intro acc _; simp [parse_field_loop, double_quotes]
  | cons x xs ih =>
    intro acc h
    have hx := h x (List.mem_cons_self _ _)
    have hxs : ∀ c ∈ xs, c ≠ 92 ∧ c ≠ 13 := fun c hc => h c (List.mem_cons_of_mem _ hc)
    by_cases hq : x = 34
    · subst hq
      simp [double_quotes, parse_field_loop, ih _ hxs]
    · simp [double_quotes, parse_field_loop, hq, hx.1, hx.2, ih _ hxs]

theorem g_strstrip_quoted (t : List Nat) : g_strstrip (34 :: t ++ [34]) = 34 :: t ++ [34] := by
  have h1 : g_strchug (34 :: t ++ [34]) = 34 :: t ++ [34] := by
    simp [g_strchug, List.dropWhile, g_ascii_isspace]
  have h2 : g_strchomp ((34 :: t) ++ [34]) = (34 :: t) ++ [34] := by
    unfold g_strchomp
    exact List.rdropWhile_concat_neg _ _ _ (by simp [g_ascii_isspace])
  unfold g_strstrip
  rw [h1]
  exact h2

theorem parse_field_quoted (s : List Nat) (hs : ∀ c ∈ s, c ≠ 92 ∧ c ≠ 13 ∧ c ≠ 0) :
    parse_field ([34] ++ double_quotes s ++ [34]) = s := by
  have hz : ∀ c ∈ [34] ++ double_quotes s ++ [34], c ≠ 0 := by
    intro c hc
    simp only [List.mem_append, List.mem_singleton] at hc
    rcases hc with (hc | hc) | hc
    · omega
    · rcases mem_double_quotes hc with h | h
      · omega
      · exact (hs c h).2.2
    · omega
  unfold parse_field
  rw [cstr_eq_self hz]
  have hst := g_strstrip_quoted (double_quotes s)
  simp only [List.singleton_append, List.cons_append, List.nil_append] at hst ⊢
  rw [hst]
  have := parse_field_loop_quoted s [] (fun c hc => ⟨(hs c hc).1, (hs c hc).2.1⟩)
  simpa [parse_field_loop] using this

theorem parse_line_loop_ne_nil (d : Nat) (fp : List Nat) :
    ∀ st string list, (st ≠ .BEGIN ∨ list ≠ []) →
      (parse_line_loop d st string list fp).1 ≠ [] := by
  induction fp with
  | nil =>
    intro st string list h
    cases st <;> simp [parse_line_loop]
    rcases h with h | h
    · exact absurd rfl h
    · exact h
  | cons c cs ih =>
    intro st string list h
    cases st <;> simp only [parse_line_loop] <;> (try split_ifs) <;>
      first
      | exact ih _ _ _ (Or.inl (by decide))
      | simp

theorem parse_line_eq_nil_iff (d : Nat) (fp : Option (List Nat)) :
    (parse_line fp d).1 = [] ↔ (fp = none ∨ fp = some []) := by
  cases fp with
  | none => simp [parse_line]
  | some cs =>
    cases cs with
    | nil => simp [parse_line, parse_line_loop]
    | cons c cs =>
      simp only [parse_line, reduceCtorEq, Option.some.injEq, false_or, iff_false]
      simp only [parse_line_loop]
      split_ifs <;>
        first
        | exact parse_line_loop_ne_nil d cs _ _ _ (Or.inl (by decide))
        | simp

/-! ## Lemmas on the merge source -/

theorem get_record_loop_eq (m : glMergeText) (p : List (List Nat)) :
    ∀ i acc, get_record_loop m p i acc =
      (acc ++ (p.enumFrom i).map (fun x => { key := key_from_index m x.1, value := x.2 }),
        i + p.length) := by
  induction p with
  | nil => intro i acc; simp [get_record_loop]
  | cons v vs ih =>
    intro i acc
    simp [get_record_loop, ih, List.enumFrom_cons]
    omega

theorem map_value_enumFrom (m : glMergeText) (p : List (List Nat)) :
    ∀ i, ((p.enumFrom i).map
      (fun x => ({ key := key_from_index m x.1, value := x.2 } : glMergeField))).map
        (fun f => f.value) = p := by
  induction p with
  | nil => intro i; simp
  | cons v vs ih => intro i; simp [List.enumFrom_cons, ih]

/-- What `gl_merge_text_get_record` does once the line is known. -/
theorem get_record_of_parse_line (m : glMergeText) (f : List Nat) (fs : List (List Nat))
    (fp1 : Option (List Nat)) (h : parse_line m.fp m.delim = (f :: fs, fp1)) :
    (gl_merge_text_get_record m).1 = some
      { select_flag := true
        field_list := ((f :: fs).enumFrom 0).map
          (fun x => { key := key_from_index m x.1, value := x.2 }) } ∧
    (gl_merge_text_get_record m).2 =
      { m with fp := fp1, n_fields_max := max m.n_fields_max (fs.length + 1) } := by
  unfold gl_merge_text_get_record
  simp only [h, get_record_loop_eq]
  split_ifs with hgt
  · refine ⟨by simp, ?_⟩
    simp only [List.length_cons, zero_add] at hgt ⊢
    rw [max_eq_right (by omega)]
  · refine ⟨by simp, ?_⟩
    simp only [List.length_cons, zero_add, not_lt] at hgt ⊢
    rw [max_eq_left (by omega)]

theorem get_record_eq_none_iff (m : glMergeText) :
    (gl_merge_text_get_record m).1 = none ↔ (m.fp = none ∨ m.fp = some []) := by
  rw [← parse_line_eq_nil_iff m.delim m.fp]
  cases hp : parse_line m.fp m.delim with
  | mk l fp1 =>
    cases l with
    | nil =>
      unfold gl_merge_text_get_record
      simp [hp]
    | cons f fs =>
      rw [(get_record_of_parse_line m f fs fp1 hp).1]
      simp

theorem parse_line_loop_normal_eof (d : Nat) (r : List Nat) :
    ∀ string list, (∀ c ∈ r, c ≠ 34 ∧ c ≠ 92 ∧ c ≠ 10) →
      parse_line_loop d .NORMAL string list r =
        (list ++ ((r.splitOn d).modifyHead (fun p => string ++ p)).map parse_field, []) := by
  induction r with
  | nil =>
    intro string list _
    simp [parse_line_loop, List.splitOn, List.splitOnP_nil]
  | cons x xs ih =>
    intro string list h
    have hx := h x (List.mem_cons_self _ _)
    have hxs : ∀ c ∈ xs, c ≠ 34 ∧ c ≠ 92 ∧ c ≠ 10 := fun c hc => h c (List.mem_cons_of_mem _ hc)
    rw [List.splitOn, List.splitOnP_cons]
    by_cases hxd : x = d
    · subst hxd
      have := ih [] (list ++ [parse_field string]) hxs
      simp [List.splitOn] at this
      simp [parse_line_loop, this]
      have hid : (fun p : List Nat => p) = id := rfl
      simp [hid]
    · have hx2 : (x == d) = false := by simpa using hxd
      have := ih (string ++ [x]) list hxs
      simp [List.splitOn] at this
      simp [parse_line_loop, hxd, hx.1, hx.2.1, hx.2.2, this, hx2]
      rfl

theorem parse_line_last_row (d : Nat) (r : List Nat) (hne : r ≠ [])
    (hr : ∀ c ∈ r, c ≠ 34 ∧ c ≠ 92 ∧ c ≠ 13 ∧ c ≠ 10 ∧ c ≠ 0) :
    parse_line (some r) d = ((r.splitOn d).map g_strstrip, some []) := by
  have hpf : parse_field [] = [] := by decide
  rw [← map_parse_field_splitOn d r hr]
  cases r with
  | nil => exact absurd rfl hne
  | cons x xs =>
    have hx := hr x (List.mem_cons_self _ _)
    have hxs : ∀ c ∈ xs, c ≠ 34 ∧ c ≠ 92 ∧ c ≠ 10 := fun c hc =>
      ⟨(hr c (List.mem_cons_of_mem _ hc)).1, (hr c (List.mem_cons_of_mem _ hc)).2.1,
        (hr c (List.mem_cons_of_mem _ hc)).2.2.2.1⟩
    unfold parse_line
    simp only
    rw [List.splitOn, List.splitOnP_cons]
    by_cases hxd : x = d
    · subst hxd
      have := parse_line_loop_normal_eof x xs [] [[]] hxs
      simp [List.splitOn] at this
      have hid : (fun p : List Nat => p) = id := rfl
      simp [hid] at this
      simp [parse_line_loop, this, hpf]
    · have hx2 : (x == d) = false := by simpa using hxd
      have := parse_line_loop_normal_eof d xs [x] [] hxs
      simp [List.splitOn] at this
      simp [parse_line_loop, hxd, hx.1, hx.2.1, hx.2.2.2.1, this, hx2]

theorem splitOn_map_ne_nil (d : Nat) (r : List Nat) :
    (r.splitOn d).map g_strstrip ≠ [] := by
  intro h
  have := congrArg List.length h
  simp [length_splitOn] at this

theorem get_record_values (m : glMergeText) (l : List (List Nat)) (fp1 : Option (List Nat))
    (hl : l ≠ []) (h : parse_line m.fp m.delim = (l, fp1)) :
    (gl_merge_text_get_record m).1.map record_values = some l ∧
    (gl_merge_text_get_record m).2.fp = fp1 ∧
    (gl_merge_text_get_record m).2.delim = m.delim := by
  cases l with
  | nil => exact absurd rfl hl
  | cons f fs =>
    have h1 := get_record_of_parse_line m f fs fp1 h
    rw [h1.1, h1.2]
    refine ⟨?_, rfl, rfl⟩
    simp only [Option.map_some', record_values]
    rw [map_value_enumFrom]

theorem get_records_succ (n : Nat) (m : glMergeText) :
    get_records (n + 1) m =
      ((gl_merge_text_get_record m).1 :: (get_records n (gl_merge_text_get_record m).2).1,
        (get_records n (gl_merge_text_get_record m).2).2) := rfl

theorem get_records_rows (k : Nat) (tail : List Nat) (rows : List (List Nat)) :
    ∀ m : glMergeText, m.delim ≠ 10 →
      (∀ r ∈ rows, ∀ c ∈ r, c ≠ 34 ∧ c ≠ 92 ∧ c ≠ 13 ∧ c ≠ 10 ∧ c ≠ 0) →
      m.fp = some (lines_stream rows ++ tail) →
      ∃ m1 : glMergeText, m1.fp = some tail ∧ m1.delim = m.delim ∧
        (get_records (rows.length + k) m).1.map (Option.map record_values) =
          rows.map (fun r => some ((r.splitOn m.delim).map g_strstrip)) ++
            (get_records k m1).1.map (Option.map record_values) := by
  induction rows with
  | nil =>
    intro m _ _ hfp
    exact ⟨m, by simpa [lines_stream] using hfp, rfl, by simp⟩
  | cons r rs ih =>
    intro m hd hrows hfp
    have hr := hrows r (List.mem_cons_self _ _)
    have hrs : ∀ r ∈ rs, ∀ c ∈ r, c ≠ 34 ∧ c ≠ 92 ∧ c ≠ 13 ∧ c ≠ 10 ∧ c ≠ 0 :=
      fun x hx => hrows x (List.mem_cons_of_mem _ hx)
    have hp : parse_line m.fp m.delim =
        ((r.splitOn m.delim).map g_strstrip, some (lines_stream rs ++ tail)) := by
      rw [hfp]
      have := parse_line_row m.delim r (lines_stream rs ++ tail) hd hr
      simpa [lines_stream] using this
    have hg := get_record_values m _ _ (splitOn_map_ne_nil m.delim r) hp
    obtain ⟨m1, h1, h2, h3⟩ := ih (gl_merge_text_get_record m).2 (by rw [hg.2.2]; exact hd)
      hrs hg.2.1
    refine ⟨m1, h1, by rw [h2, hg.2.2], ?_⟩
    have e : (r :: rs).length + k = (rs.length + k) + 1 := by simp; omega
    rw [e, get_records_succ]
    simp only [List.map_cons, hg.1, h3, hg.2.2, List.cons_append]

theorem get_record_frame (m : glMergeText) :
    (gl_merge_text_get_record m).2.keys = m.keys ∧
    (gl_merge_text_get_record m).2.line1_has_keys = m.line1_has_keys ∧
    (gl_merge_text_get_record m).2.delim = m.delim ∧
    (gl_merge_text_get_record m).2.src = m.src := by
  cases hp : parse_line m.fp m.delim with
  | mk l fp1 =>
    cases l with
    | nil =>
      unfold gl_merge_text_get_record
      simp [hp]
    | cons f fs =>
      rw [(get_record_of_parse_line m f fs fp1 hp).2]
      simp

theorem get_record_n_fields_max (m : glMergeText) :
    (gl_merge_text_get_record m).2.n_fields_max =
      max m.n_fields_max (match (gl_merge_text_get_record m).1 with
        | none => 0
        | some record => record.field_list.length) := by
  cases hp : parse_line m.fp m.delim with
  | mk l fp1 =>
    cases l with
    | nil =>
      unfold gl_merge_text_get_record
      simp [hp]
    | cons f fs =>
      rw [(get_record_of_parse_line m f fs fp1 hp).2, (get_record_of_parse_line m f fs fp1 hp).1]
      simp

theorem get_records_frame (n : Nat) :
    ∀ m : glMergeText,
      (get_records n m).2.keys = m.keys ∧
      (get_records n m).2.line1_has_keys = m.line1_has_keys ∧
      (get_records n m).2.delim = m.delim ∧
      (get_records n m).2.src = m.src := by
  induction n with
  | zero => intro m; simp [get_records]
  | succ n ih =>
    intro m
    rw [get_records_succ]
    have h1 := ih (gl_merge_text_get_record m).2
    have h2 := get_record_frame m
    simp only
    exact ⟨h1.1.trans h2.1, h1.2.1.trans h2.2.1, h1.2.2.1.trans h2.2.2.1,
      h1.2.2.2.trans h2.2.2.2⟩

theorem get_records_n_fields_max (n : Nat) :
    ∀ m : glMergeText,
      (get_records n m).2.n_fields_max =
        max m.n_fields_max ((field_counts (get_records n m).1).foldr max 0) := by
  induction n with
  | zero => intro m; simp [get_records, field_counts]
  | succ n ih =>
    intro m
    rw [get_records_succ]
    simp only [field_counts, List.map_cons, List.foldr_cons]
    rw [ih, get_record_n_fields_max]
    simp only [field_counts]
    rw [max_assoc]

theorem key_list_header (m : glMergeText) (h : m.line1_has_keys = true) :
    gl_merge_text_get_key_list m = m.keys := by
  unfold gl_merge_text_get_key_list
  simp only [h, if_true]
  apply List.ext_getElem
  · simp
  · intro i h1 h2
    simp only [List.getElem_map, List.getElem_range, key_from_index, h, if_true]
    rw [dif_pos h2]
    rfl

theorem key_list_no_header (m : glMergeText) (h : m.line1_has_keys = false) :
    gl_merge_text_get_key_list m =
      (List.range m.n_fields_max).map (fun i => g_strdup_printf_d (i + 1)) := by
  unfold gl_merge_text_get_key_list key_from_index
  simp [h]

theorem open_header (files : Files) (m : glMergeText) (src : List Nat)
    (hsrc : m.src = some src) (hhdr : m.line1_has_keys = true) :
    gl_merge_text_open files m =
      { m with
        fp := (parse_line (open_stream files src) m.delim).2
        keys := (parse_line (open_stream files src) m.delim).1
        n_fields_max := 0 } := by
  unfold gl_merge_text_open
  simp [hsrc, hhdr, clear_keys]

theorem open_no_header (files : Files) (m : glMergeText) (src : List Nat)
    (hsrc : m.src = some src) (hhdr : m.line1_has_keys = false) :
    gl_merge_text_open files m =
      { m with fp := open_stream files src, keys := [], n_fields_max := 0 } := by
  unfold gl_merge_text_open
  simp [hsrc, hhdr, clear_keys]

theorem get_record_keys (m : glMergeText) (record : glMergeRecord)
    (h : (gl_merge_text_get_record m).1 = some record) :
    record_keys record = (List.range record.field_list.length).map (key_from_index m) := by
  cases hp : parse_line m.fp m.delim with
  | mk l fp1 =>
    cases l with
    | nil =>
      have : (gl_merge_text_get_record m).1 = none := by
        unfold gl_merge_text_get_record
        simp [hp]
      rw [this] at h
      exact absurd h (by simp)
    | cons f fs =>
      rw [(get_record_of_parse_line m f fs fp1 hp).1] at h
      cases h
      simp only [record_keys, List.map_map, List.length_map, List.enumFrom_length]
      rw [← List.enum_map_fst (f :: fs), List.map_map]
      rfl

theorem map_key_from_index_range (m : glMergeText) (h : m.line1_has_keys = true) (n : Nat)
    (hn : n ≤ m.keys.length) :
    (List.range n).map (key_from_index m) = m.keys.take n := by
  apply List.ext_getElem
  · simp [hn]
  · intro i h1 h2
    have hi : i < m.keys.length := by
      simp at h2
      omega
    simp only [List.getElem_map, List.getElem_range, key_from_index, h, if_true,
      List.getElem_take]
    rw [dif_pos hi]
    rfl

/-! ## Theorems on the claims -/

/-- C1, as stated, fails: with the delimiter `,` the row made of a vertical tab
and `a` is returned as the single field VT `a`, the vertical tab not being
white space for `g_strstrip`, while trimming space, TAB, LF, VT, FF and CR
gives `a`. -/
theorem unquoted_row_vertical_tab_kept :
    (parse_line (some ([11, 97] ++ [10])) 44).1 = [[11, 97]] ∧
    ([11, 97].splitOn 44).map trim_isspace_c = [[97]] ∧
    (parse_line (some ([11, 97] ++ [10])) 44).1 ≠ ([11, 97].splitOn 44).map trim_isspace_c := by
  decide

/-- C1, amended: for every delimiter `d` other than LF and every row `r`
without double-quote, backslash, CR, LF and NUL, `parse_line` on `r` followed
by LF returns the pieces of `r` split at every `d`, each stripped by
`g_strstrip` (space, TAB, LF, FF, CR), and leaves what follows the LF unread;
there is one field more than there are delimiters in `r`, and a row that
begins with `d` has an empty first field. -/
theorem parse_line_unquoted_row (d : Nat) (r rest : List Nat) (hd : d ≠ 10)
    (hr : ∀ c ∈ r, c ≠ 34 ∧ c ≠ 92 ∧ c ≠ 13 ∧ c ≠ 10 ∧ c ≠ 0) :
    parse_line (some (r ++ 10 :: rest)) d = ((r.splitOn d).map g_strstrip, some rest) ∧
    (parse_line (some (r ++ 10 :: rest)) d).1.length = r.count d + 1 ∧
    (∀ r', r = d :: r' → (parse_line (some (r ++ 10 :: rest)) d).1.head? = some []) := by
  have h := parse_line_row d r rest hd hr
  refine ⟨h, ?_, ?_⟩
  · rw [h]; simp [length_splitOn]
  · intro r' hr'
    rw [h, hr', List.splitOn, List.splitOnP_cons]
    simp [g_strstrip, g_strchug, g_strchomp]

/-- C1, witness: the row ` a,b ,,c` with the delimiter `,`. -/
theorem parse_line_unquoted_row_witness :
    parse_line (some ([32, 97, 44, 98, 32, 44, 44, 99] ++ 10 :: [120])) 44 =
      ([[97], [98], [], [99]], some [120]) := by
  have h := (parse_line_unquoted_row 44 [32, 97, 44, 98, 32, 44, 44, 99] [120]
    (by decide) (by decide)).1
  rw [h]
  decide

/-- C2: for every delimiter `d` other than the double-quote and LF and every
string `s` without backslash, CR and NUL, the stream made of a double-quote,
`s` with its double-quotes doubled and a closing double-quote tokenises, when
LF follows, to the single field `s` (what follows the LF staying unread), and,
when `d` and any further text follow, to a line whose first field is `s`. -/
theorem quoted_round_trip (d : Nat) (s rest more : List Nat) (hd : d ≠ 34 ∧ d ≠ 10)
    (hs : ∀ c ∈ s, c ≠ 92 ∧ c ≠ 13 ∧ c ≠ 0) :
    parse_line (some ([34] ++ double_quotes s ++ [34] ++ 10 :: rest)) d = ([s], some rest) ∧
    (parse_line (some ([34] ++ double_quotes s ++ [34] ++ d :: more)) d).1.head? = some s := by
  have h34 : ¬ (34 = d) := fun h => hd.1 h.symm
  have h10 : ¬ (10 = d) := fun h => hd.2 h.symm
  have hq := fun tail => parse_line_loop_quoted d hd.1 tail s [34] []
    (fun c hc => (hs c hc).1)
  have hf := parse_field_quoted s hs
  simp only [List.singleton_append, List.cons_append, List.append_assoc,
    List.nil_append] at hq hf ⊢
  constructor
  · simp [parse_line, parse_line_loop, h34, h10, hq, hf]
  · simp only [parse_line, parse_line_loop, h34, if_false, if_true, List.nil_append, hq,
      List.append_assoc, List.singleton_append, List.cons_append, hf]
    rw [parse_line_loop_list]
    simp

/-- C2, witness: the spec's examples `"a,b"`, `"he said ""hi"""` and
`"line1 LF line2",next` with the delimiter `,`. -/
theorem quoted_round_trip_witness :
    parse_line (some ([34] ++ double_quotes [97, 44, 98] ++ [34] ++ 10 :: [])) 44 =
      ([[97, 44, 98]], some []) ∧
    parse_line (some [34, 104, 101, 32, 115, 97, 105, 100, 32, 34, 34, 104, 105, 34, 34, 34,
      10]) 44 = ([[104, 101, 32, 115, 97, 105, 100, 32, 34, 104, 105, 34]], some []) ∧
    parse_line (some [34, 108, 105, 110, 101, 49, 10, 108, 105, 110, 101, 50, 34, 44,
      110, 101, 120, 116, 10]) 44 =
      ([[108, 105, 110, 101, 49, 10, 108, 105, 110, 101, 50], [110, 101, 120, 116]],
        some []) :=
  ⟨(quoted_round_trip 44 [97, 44, 98] [] [] (by decide) (by decide)).1, by decide, by decide⟩

/-- C3, as stated, fails when white space is space, TAB, LF, VT, FF and CR: the
raw field backslash, `a`, VT gives `a`, VT, the vertical tab not being white
space for `g_strstrip`, where the claim gives `a`; and VT, backslash, `n`
gives VT, LF where the claim gives LF. -/
theorem escape_law_vertical_tab_kept :
    parse_field ([] ++ [92] ++ [97] ++ [11]) = [97, 11] ∧
    lstrip_isspace_c [] ++ [escaped_char 97] ++ rstrip_isspace_c [11] = [97] ∧
    parse_field ([] ++ [92] ++ [97] ++ [11]) ≠
      lstrip_isspace_c [] ++ [escaped_char 97] ++ rstrip_isspace_c [11] ∧
    parse_field ([11] ++ [92] ++ [110] ++ []) = [11, 10] ∧
    parse_field ([11] ++ [92] ++ [110] ++ []) ≠
      lstrip_isspace_c [11] ++ [escaped_char 110] ++ rstrip_isspace_c [] := by
  decide

/-- C3, amended: white space being that of `g_strstrip` (space, TAB, LF, FF
and CR), for all strings `u`, `v` without double-quote, backslash, CR and NUL
and every non-NUL character `c`: when `c` is not white space or `v` holds a
character that is not white space, `parse_field` of `u`, a backslash, `c`, `v`
is `u` without its leading white space, then the escaped character (LF for
`n`, TAB for `t`, `c` itself otherwise), then `v` without its trailing white
space; and between quotes `parse_field` gives `u`, the escaped character,
`v`. -/
theorem escape_law (u v : List Nat) (c : Nat)
    (hu : ∀ x ∈ u, x ≠ 34 ∧ x ≠ 92 ∧ x ≠ 13 ∧ x ≠ 0)
    (hv : ∀ x ∈ v, x ≠ 34 ∧ x ≠ 92 ∧ x ≠ 13 ∧ x ≠ 0) (hc : c ≠ 0) :
    ((g_ascii_isspace c = false ∨ ∃ x ∈ v, g_ascii_isspace x = false) →
      parse_field (u ++ [92] ++ [c] ++ v) =
        g_strchug u ++ [escaped_char c] ++ g_strchomp v) ∧
    parse_field ([34] ++ u ++ [92] ++ [c] ++ v ++ [34]) = u ++ [escaped_char c] ++ v := by
  have hpu : ∀ x ∈ u, x ≠ 92 ∧ x ≠ 34 ∧ x ≠ 13 := fun x hx =>
    ⟨(hu x hx).2.1, (hu x hx).1, (hu x hx).2.2.1⟩
  have hpv : ∀ x ∈ v, x ≠ 92 ∧ x ≠ 34 ∧ x ≠ 13 := fun x hx =>
    ⟨(hv x hx).2.1, (hv x hx).1, (hv x hx).2.2.1⟩
  constructor
  · intro hcv
    have hz : ∀ x ∈ u ++ [92] ++ [c] ++ v, x ≠ 0 := by
      intro x hx
      simp only [List.mem_append, List.mem_singleton] at hx
      rcases hx with ((hx | hx) | hx) | hx
      · exact (hu x hx).2.2.2
      · omega
      · omega
      · exact (hv x hx).2.2.2
    unfold parse_field
    rw [cstr_eq_self hz]
    have e1 : u ++ [92] ++ [c] ++ v = u ++ 92 :: c :: v := by simp
    have e2 : g_strchug u ++ [escaped_char c] ++ g_strchomp v =
        g_strchug u ++ escaped_char c :: g_strchomp v := by simp
    rw [e1, e2, g_strstrip_escape u v c hcv]
    have hcu : ∀ x ∈ g_strchug u, x ≠ 92 ∧ x ≠ 34 ∧ x ≠ 13 := fun x hx =>
      hpu x ((List.dropWhile_suffix g_ascii_isspace).subset hx)
    have hcv2 : ∀ x ∈ g_strchomp v, x ≠ 92 ∧ x ≠ 34 ∧ x ≠ 13 := fun x hx =>
      hpv x ((List.rdropWhile_prefix g_ascii_isspace _).subset hx)
    rw [parse_field_loop_normal_append _ _ _ hcu, parse_field_loop_normal_backslash,
      parse_field_loop_normal_escaped, parse_field_loop_normal_plain _ _ hcv2]
    simp
  · have hz : ∀ x ∈ [34] ++ u ++ [92] ++ [c] ++ v ++ [34], x ≠ 0 := by
      intro x hx
      simp only [List.mem_append, List.mem_singleton] at hx
      rcases hx with ((((hx | hx) | hx) | hx) | hx) | hx
      · omega
      · exact (hu x hx).2.2.2
      · omega
      · omega
      · exact (hv x hx).2.2.2
      · omega
    unfold parse_field
    rw [cstr_eq_self hz]
    have e1 : [34] ++ u ++ [92] ++ [c] ++ v ++ [34] = 34 :: (u ++ 92 :: c :: v) ++ [34] := by
      simp
    have e2 : 34 :: (u ++ 92 :: c :: v) ++ [34] = 34 :: (u ++ 92 :: c :: (v ++ [34])) := by
      simp
    rw [e1, g_strstrip_quoted, e2]
    rw [parse_field_loop_normal_quote, parse_field_loop_quoted_append _ _ _ hpu,
      parse_field_loop_quoted_backslash, parse_field_loop_quoted_escaped,
      parse_field_loop_quoted_append _ _ _ hpv]
    simp [parse_field_loop]

/-- C3, witness: `a\nb` gives `a`, LF, `b` and `a\tb` gives `a`, TAB, `b`;
between quotes an escaped double-quote is kept. -/
theorem escape_law_witness :
    parse_field ([97] ++ [92] ++ [110] ++ [98]) = [97, 10, 98] ∧
    parse_field ([97] ++ [92] ++ [116] ++ [98]) = [97, 9, 98] ∧
    parse_field ([34] ++ [32, 97] ++ [92] ++ [34] ++ [98, 32] ++ [34]) = [32, 97, 34, 98, 32] :=
  ⟨(escape_law [97] [98] 110 (by decide) (by decide) (by decide)).1 (Or.inl (by decide)),
   (escape_law [97] [98] 116 (by decide) (by decide) (by decide)).1 (Or.inl (by decide)),
   (escape_law [32, 97] [98, 32] 34 (by decide) (by decide) (by decide)).2⟩

/-- C4: for every delimiter and every stream handle, `parse_line` returns the
empty list exactly when the handle is unset or no character is left to read,
`gl_merge_text_get_record` returns no record exactly in those cases, and every
record it returns has at least one field. -/
theorem end_of_data_iff_exhausted (d : Nat) (fp : Option (List Nat)) (m : glMergeText) :
    ((parse_line fp d).1 = [] ↔ (fp = none ∨ fp = some [])) ∧
    ((gl_merge_text_get_record m).1 = none ↔ (m.fp = none ∨ m.fp = some [])) ∧
    (∀ record, (gl_merge_text_get_record m).1 = some record →
      1 ≤ record.field_list.length) := by
  refine ⟨parse_line_eq_nil_iff d fp, get_record_eq_none_iff m, ?_⟩
  intro record h
  cases hp : parse_line m.fp m.delim with
  | mk l fp1 =>
    cases l with
    | nil =>
      have : (gl_merge_text_get_record m).1 = none := by
        unfold gl_merge_text_get_record
        simp [hp]
      rw [this] at h
      exact absurd h (by simp)
    | cons f fs =>
      have h1 := (get_record_of_parse_line m f fs fp1 hp).1
      rw [h1] at h
      cases h
      simp

/-- C4, witness: a stream holding only a space gives a record, of one field. -/
theorem end_of_data_iff_exhausted_witness :
    (gl_merge_text_get_record
      { src := none, delim := 44, line1_has_keys := false, fp := some [32], keys := [],
        n_fields_max := 0 }).1 =
      some { select_flag := true, field_list := [{ key := [49], value := [] }] } ∧
    1 ≤ ({ select_flag := true, field_list := [{ key := [49], value := [] }] } :
      glMergeRecord).field_list.length :=
  ⟨by decide,
   (end_of_data_iff_exhausted 44 none
    { src := none, delim := 44, line1_has_keys := false, fp := some [32], keys := [],
      n_fields_max := 0 }).2.2 _ (by decide)⟩

/-- C5: for every delimiter other than LF and every stream whose next
character is LF, `parse_line` returns the single empty field and leaves the
stream just after that LF; `gl_merge_text_get_record` returns a record of
exactly one field, of empty value, and its stream is left just after the
LF. -/
theorem empty_line_law (m : glMergeText) (rest : List Nat) (hd : m.delim ≠ 10)
    (hfp : m.fp = some (10 :: rest)) :
    parse_line m.fp m.delim = ([[]], some rest) ∧
    (gl_merge_text_get_record m).1 = some
      { select_flag := true, field_list := [{ key := key_from_index m 0, value := [] }] } ∧
    (gl_merge_text_get_record m).2.fp = some rest := by
  have h10 : ¬ (10 = m.delim) := fun h => hd h.symm
  have hp : parse_line m.fp m.delim = ([[]], some rest) := by
    rw [hfp]
    simp [parse_line, parse_line_loop, h10]
  have h := get_record_of_parse_line m [] [] (some rest) hp
  refine ⟨hp, ?_, ?_⟩
  · rw [h.1]; simp [List.enumFrom]
  · rw [h.2]

/-- C5, witness: an empty line in front of `x`, the delimiter being `,`. -/
theorem empty_line_law_witness :
    parse_line (some [10, 120]) 44 = ([[]], some [120]) :=
  (empty_line_law
    { src := none, delim := 44, line1_has_keys := false, fp := some [10, 120], keys := [],
      n_fields_max := 0 } [120] (by decide) rfl).1

/-- C6, as stated, fails when trimming removes space, TAB, LF, VT, FF and CR:
on the stream of the one row VT, `a` the record holds the field VT, `a`, where
splitting and trimming the row gives `a`. -/
theorem record_streaming_vertical_tab_kept :
    (get_records 2
      { src := none, delim := 44, line1_has_keys := false,
        fp := some (lines_stream [[11, 97]]), keys := [],
        n_fields_max := 0 }).1.map (Option.map record_values) =
      [some [[11, 97]], none] ∧
    [[11, 97]].map (fun r => some ((r.splitOn 44).map trim_isspace_c)) ++ [none] =
      [some [[97]], none] ∧
    (get_records 2
      { src := none, delim := 44, line1_has_keys := false,
        fp := some (lines_stream [[11, 97]]), keys := [],
        n_fields_max := 0 }).1.map (Option.map record_values) ≠
      [[11, 97]].map (fun r => some ((r.splitOn 44).map trim_isspace_c)) ++ [none] := by
  decide

/-- C6, amended: for every source whose delimiter is not LF and every list of
rows without double-quote, backslash, CR, LF and NUL: on the stream of the
rows, each followed by LF, the calls of `gl_merge_text_get_record` return one
record per row, holding the pieces of that row in order, each stripped by
`g_strstrip` (space, TAB, LF, FF and CR), and the call after the last row
returns no record; when a last non-empty row without its LF follows, that row
gives one more record before the end of data. -/
theorem record_streaming (m : glMergeText) (rows : List (List Nat)) (hd : m.delim ≠ 10)
    (hrows : ∀ r ∈ rows, ∀ c ∈ r, c ≠ 34 ∧ c ≠ 92 ∧ c ≠ 13 ∧ c ≠ 10 ∧ c ≠ 0) :
    (m.fp = some (lines_stream rows) →
      (get_records (rows.length + 1) m).1.map (Option.map record_values) =
        rows.map (fun r => some ((r.splitOn m.delim).map g_strstrip)) ++ [none]) ∧
    (∀ last : List Nat, last ≠ [] →
      (∀ c ∈ last, c ≠ 34 ∧ c ≠ 92 ∧ c ≠ 13 ∧ c ≠ 10 ∧ c ≠ 0) →
      m.fp = some (lines_stream rows ++ last) →
      (get_records (rows.length + 2) m).1.map (Option.map record_values) =
        rows.map (fun r => some ((r.splitOn m.delim).map g_strstrip)) ++
          [some ((last.splitOn m.delim).map g_strstrip), none]) := by
  constructor
  · intro hfp
    obtain ⟨m1, h1, _, h3⟩ := get_records_rows 1 [] rows m hd hrows (by simpa using hfp)
    rw [h3]
    have hn : (gl_merge_text_get_record m1).1 = none :=
      (get_record_eq_none_iff m1).2 (Or.inr h1)
    simp [get_records, hn]
  · intro last hne hlast hfp
    obtain ⟨m1, h1, h2, h3⟩ := get_records_rows 2 last rows m hd hrows hfp
    rw [h3]
    have hp : parse_line m1.fp m1.delim = ((last.splitOn m1.delim).map g_strstrip, some []) := by
      rw [h1]
      exact parse_line_last_row m1.delim last hne hlast
    have hg := get_record_values m1 _ _ (splitOn_map_ne_nil m1.delim last) hp
    have hn : (gl_merge_text_get_record (gl_merge_text_get_record m1).2).1 = none :=
      (get_record_eq_none_iff _).2 (Or.inr hg.2.1)
    simp [get_records, hn, hg.1, h2]

/-- C6, witness: the rows `a, b` and `c` with the delimiter `,`, then the
same stream followed by the unterminated row `d`. -/
theorem record_streaming_witness :
    (get_records 3
      { src := none, delim := 44, line1_has_keys := false,
        fp := some [97, 44, 32, 98, 10, 99, 10], keys := [],
        n_fields_max := 0 }).1.map (Option.map record_values) =
      [some [[97], [98]], some [[99]], none] ∧
    (get_records 4
      { src := none, delim := 44, line1_has_keys := false,
        fp := some [97, 44, 32, 98, 10, 99, 10, 100], keys := [],
        n_fields_max := 0 }).1.map (Option.map record_values) =
      [some [[97], [98]], some [[99]], some [[100]], none] :=
  ⟨(record_streaming
      { src := none, delim := 44, line1_has_keys := false,
        fp := some [97, 44, 32, 98, 10, 99, 10], keys := [], n_fields_max := 0 }
      [[97, 44, 32, 98], [99]] (by decide) (by decide)).1 rfl,
   (record_streaming
      { src := none, delim := 44, line1_has_keys := false,
        fp := some [97, 44, 32, 98, 10, 99, 10, 100], keys := [], n_fields_max := 0 }
      [[97, 44, 32, 98], [99]] (by decide) (by decide)).2 [100] (by decide) (by decide) rfl⟩

/-- C7: with `line1_has_keys` set, after `gl_merge_text_open` on a stream,
`gl_merge_text_get_key_list` returns exactly the fields `parse_line` finds on
the first logical line of that stream, and it returns the same list after any
number of calls of `gl_merge_text_get_record`, whatever the later rows hold. -/
theorem header_key_stability (files : Files) (m : glMergeText) (src stream : List Nat)
    (n : Nat) (hsrc : m.src = some src) (hopen : open_stream files src = some stream)
    (hhdr : m.line1_has_keys = true) :
    gl_merge_text_get_key_list (gl_merge_text_open files m) =
      (parse_line (some stream) m.delim).1 ∧
    gl_merge_text_get_key_list (get_records n (gl_merge_text_open files m)).2 =
      (parse_line (some stream) m.delim).1 := by
  have ho := open_header files m src hsrc hhdr
  have hf := get_records_frame n (gl_merge_text_open files m)
  constructor
  · rw [key_list_header _ (by rw [ho]; exact hhdr), ho, hopen]
  · rw [key_list_header _ (by rw [hf.2.1, ho]; exact hhdr), hf.1, ho, hopen]

/-- C7, witness: the header `id,name` followed by a row of three fields and a
row of one field; the key list is `id`, `name` after all of them are read. -/
theorem header_key_stability_witness :
    gl_merge_text_get_key_list (get_records 3 (gl_merge_text_open
      { stdin := [], fopen := fun _ => some [105, 100, 44, 110, 97, 109, 101, 10,
          49, 44, 50, 44, 51, 10, 52, 10] }
      { src := some [102], delim := 44, line1_has_keys := true, fp := none, keys := [],
        n_fields_max := 0 })).2 = [[105, 100], [110, 97, 109, 101]] :=
  (header_key_stability
    { stdin := [], fopen := fun _ => some [105, 100, 44, 110, 97, 109, 101, 10,
        49, 44, 50, 44, 51, 10, 52, 10] }
    { src := some [102], delim := 44, line1_has_keys := true, fp := none, keys := [],
      n_fields_max := 0 }
    [102] [105, 100, 44, 110, 97, 109, 101, 10, 49, 44, 50, 44, 51, 10, 52, 10] 3
    rfl rfl rfl).2

/-- C8: with `line1_has_keys` unset and a source selector set, after
`gl_merge_text_open` and `n` calls of `gl_merge_text_get_record`,
`gl_merge_text_get_key_list` returns the decimal strings `1` to `N`, `N` being
the largest field count among the records returned (zero when none was); it is
empty right after the open. -/
theorem no_header_growth (files : Files) (m : glMergeText) (src : List Nat) (n : Nat)
    (hsrc : m.src = some src) (hhdr : m.line1_has_keys = false) :
    gl_merge_text_get_key_list (get_records n (gl_merge_text_open files m)).2 =
      (List.range ((field_counts (get_records n (gl_merge_text_open files m)).1).foldr
        max 0)).map (fun i => g_strdup_printf_d (i + 1)) ∧
    gl_merge_text_get_key_list (gl_merge_text_open files m) = [] := by
  have ho := open_no_header files m src hsrc hhdr
  have hf := get_records_frame n (gl_merge_text_open files m)
  have hmax := get_records_n_fields_max n (gl_merge_text_open files m)
  have h0 : (gl_merge_text_open files m).n_fields_max = 0 := by rw [ho]
  have hh : (gl_merge_text_open files m).line1_has_keys = false := by rw [ho]; exact hhdr
  constructor
  · rw [key_list_no_header _ (by rw [hf.2.1]; exact hh), hmax, h0]
    simp
  · rw [key_list_no_header _ hh, h0]
    simp

/-- C8, witness: a row of three fields then a row of five fields give the
keys `1`, `2`, `3`, `4`, `5`. -/
theorem no_header_growth_witness :
    gl_merge_text_get_key_list (get_records 2 (gl_merge_text_open
      { stdin := [], fopen := fun _ => some [97, 44, 98, 44, 99, 10,
          97, 44, 98, 44, 99, 44, 100, 44, 101, 10] }
      { src := some [102], delim := 44, line1_has_keys := false, fp := none, keys := [],
        n_fields_max := 0 })).2 = [[49], [50], [51], [52], [53]] := by
  have h := (no_header_growth
    { stdin := [], fopen := fun _ => some [97, 44, 98, 44, 99, 10,
        97, 44, 98, 44, 99, 44, 100, 44, 101, 10] }
    { src := some [102], delim := 44, line1_has_keys := false, fp := none, keys := [],
      n_fields_max := 0 } [102] 2 rfl rfl).1
  rw [h]
  decide

/-- C9, as stated, fails: a source without header, opened on the stream `a`
LF and not yet read, has an empty key list while its primary key is `1`. -/
theorem primary_key_of_empty_key_list :
    gl_merge_text_get_key_list (gl_merge_text_open
      { stdin := [], fopen := fun _ => some [97, 10] }
      { src := some [102], delim := 44, line1_has_keys := false, fp := none, keys := [],
        n_fields_max := 0 }) = [] ∧
    gl_merge_text_get_primary_key (gl_merge_text_open
      { stdin := [], fopen := fun _ => some [97, 10] }
      { src := some [102], delim := 44, line1_has_keys := false, fp := none, keys := [],
        n_fields_max := 0 }) = [49] ∧
    (gl_merge_text_get_key_list (gl_merge_text_open
      { stdin := [], fopen := fun _ => some [97, 10] }
      { src := some [102], delim := 44, line1_has_keys := false, fp := none, keys := [],
        n_fields_max := 0 })).head? ≠
      some (gl_merge_text_get_primary_key (gl_merge_text_open
        { stdin := [], fopen := fun _ => some [97, 10] }
        { src := some [102], delim := 44, line1_has_keys := false, fp := none, keys := [],
          n_fields_max := 0 })) := by
  decide

/-- C9, amended: in every state of the source, when the list of
`gl_merge_text_get_key_list` is not empty its first element is the result of
`gl_merge_text_get_primary_key`, and when it is empty the primary key is the
string `1`. -/
theorem primary_key_is_first_key (m : glMergeText) :
    (∀ k ks, gl_merge_text_get_key_list m = k :: ks →
      gl_merge_text_get_primary_key m = k) ∧
    (gl_merge_text_get_key_list m = [] → gl_merge_text_get_primary_key m = [49]) := by
  have h1 : g_strdup_printf_d 1 = [49] := by decide
  constructor
  · intro k ks h
    unfold gl_merge_text_get_key_list at h
    unfold gl_merge_text_get_primary_key
    generalize (if m.line1_has_keys = true then m.keys.length else m.n_fields_max) = n at h
    dsimp only at h
    cases n with
    | zero => simp at h
    | succ n =>
      rw [List.range_succ_eq_map] at h
      simp only [List.map_cons, List.cons.injEq] at h
      exact h.1
  · intro h
    unfold gl_merge_text_get_key_list at h
    unfold gl_merge_text_get_primary_key key_from_index
    simp only [List.map_eq_nil_iff, List.range_eq_nil] at h
    by_cases hh : m.line1_has_keys = true
    · simp only [hh, if_true] at h ⊢
      rw [dif_neg (by omega)]
      exact h1
    · simp only [hh]
      exact h1

/-- C9, witness: a source with the header keys `id`, `name` has the primary
key `id`. -/
theorem primary_key_is_first_key_witness :
    gl_merge_text_get_primary_key
      { src := none, delim := 44, line1_has_keys := true, fp := none,
        keys := [[105, 100], [110, 97, 109, 101]], n_fields_max := 0 } = [105, 100] :=
  (primary_key_is_first_key
    { src := none, delim := 44, line1_has_keys := true, fp := none,
      keys := [[105, 100], [110, 97, 109, 101]], n_fields_max := 0 }).1
    [105, 100] [[110, 97, 109, 101]] (by decide)

/-- C10: in every record `gl_merge_text_get_record` returns, the field at the
zero based column `i` has the stored header key of index `i` when
`line1_has_keys` is set and `i` is less than the number of stored keys, and
the decimal string of `i + 1` otherwise; so in header mode a row not longer
than the header carries the first keys of the header, and a longer row carries
the whole header followed by the decimal strings of the further positions. -/
theorem key_derivation_per_column (m : glMergeText) (record : glMergeRecord)
    (h : (gl_merge_text_get_record m).1 = some record) :
    (∀ i, ∀ hi : i < record.field_list.length,
      (m.line1_has_keys = true → ∀ hk : i < m.keys.length,
        (record.field_list.get ⟨i, hi⟩).key = m.keys.get ⟨i, hk⟩) ∧
      (m.line1_has_keys = false ∨ m.keys.length ≤ i →
        (record.field_list.get ⟨i, hi⟩).key = g_strdup_printf_d (i + 1))) ∧
    (m.line1_has_keys = true → record.field_list.length ≤ m.keys.length →
      record_keys record = m.keys.take record.field_list.length) ∧
    (m.line1_has_keys = true → m.keys.length ≤ record.field_list.length →
      record_keys record = m.keys ++
        (List.range' m.keys.length (record.field_list.length - m.keys.length)).map
          (fun i => g_strdup_printf_d (i + 1))) := by
  have hk := get_record_keys m record h
  refine ⟨?_, ?_, ?_⟩
  · intro i hi
    have hki : (record_keys record).get ⟨i, by simp [record_keys]; exact hi⟩ =
        key_from_index m i := by
      simp only [hk, List.get_eq_getElem, List.getElem_map, List.getElem_range]
    have hki2 : (record.field_list.get ⟨i, hi⟩).key = key_from_index m i := by
      rw [← hki]
      simp [record_keys]
    rw [hki2]
    unfold key_from_index
    constructor
    · intro hh hlt
      simp only [hh, if_true]
      rw [dif_pos hlt]
    · intro hor
      rcases hor with hh | hge
      · simp [hh]
      · by_cases hh : m.line1_has_keys = true
        · simp only [hh, if_true]
          rw [dif_neg (by omega)]
        · simp [hh]
  · intro hh hle
    rw [hk, map_key_from_index_range m hh _ hle]
  · intro hh hle
    rw [hk]
    obtain ⟨j, hj⟩ : ∃ j, record.field_list.length = m.keys.length + j :=
      ⟨record.field_list.length - m.keys.length, by omega⟩
    have hsplit : List.range (m.keys.length + j) =
        List.range m.keys.length ++ List.range' m.keys.length j := by
      rw [List.range_eq_range', List.range_eq_range', Nat.add_comm,
        ← List.range'_append_1]
      simp
    rw [hj, hsplit, List.map_append, map_key_from_index_range m hh _ (le_refl _),
      List.take_length, Nat.add_sub_cancel_left]
    congr 1
    apply List.map_congr_left
    intro i hi
    have hge : m.keys.length ≤ i := by
      simp [List.mem_range'_1] at hi
      omega
    unfold key_from_index
    simp only [hh, if_true]
    rw [dif_neg (by omega)]

/-- C10, witness: under the header `id`, `name` the row `1,2,3` gets the keys
`id`, `name`, `3` and the row `4` gets the key `id`. -/
theorem key_derivation_per_column_witness :
    record_keys
      { select_flag := true,
        field_list := [{ key := [105, 100], value := [49] },
          { key := [110, 97, 109, 101], value := [50] }, { key := [51], value := [51] }] } =
      [[105, 100], [110, 97, 109, 101]] ++
        (List.range' 2 (3 - 2)).map (fun i => g_strdup_printf_d (i + 1)) ∧
    record_keys
      { select_flag := true, field_list := [{ key := [105, 100], value := [52] }] } =
      [[105, 100], [110, 97, 109, 101]].take 1 :=
  ⟨(key_derivation_per_column
      { src := none, delim := 44, line1_has_keys := true,
        fp := some [49, 44, 50, 44, 51, 10, 52, 10],
        keys := [[105, 100], [110, 97, 109, 101]], n_fields_max := 0 } _
      (by decide)).2.2 rfl (by decide),
   (key_derivation_per_column
      { src := none, delim := 44, line1_has_keys := true,
        fp := some [52, 10],
        keys := [[105, 100], [110, 97, 109, 101]], n_fields_max := 0 } _
      (by decide)).2.1 rfl (by decide)⟩

/-! ## Record assembly, header line, growth of the key list -/

theorem get_record_select_flag (m : glMergeText) (record : glMergeRecord)
    (h : (gl_merge_text_get_record m).1 = some record) : record.select_flag = true := by
  cases hp : parse_line m.fp m.delim with
  | mk l fp1 =>
    cases l with
    | nil =>
      have : (gl_merge_text_get_record m).1 = none := by
        unfold gl_merge_text_get_record
        simp [hp]
      rw [this] at h
      exact absurd h (by simp)
    | cons f fs =>
      rw [(get_record_of_parse_line m f fs fp1 hp).1] at h
      cases h
      rfl

/-- C11: whenever `parse_line` returns a non-empty list of fields,
`gl_merge_text_get_record` returns a record with as many fields, whose values
are those fields in the same order and whose selection flag is set; no record
it returns has the flag unset. -/
theorem record_assembly (m : glMergeText) :
    (∀ f fs fp1, parse_line m.fp m.delim = (f :: fs, fp1) →
      ∃ record, (gl_merge_text_get_record m).1 = some record ∧
        record.field_list.length = (f :: fs).length ∧
        record_values record = f :: fs ∧
        record.select_flag = true) ∧
    (∀ record, (gl_merge_text_get_record m).1 = some record →
      record.select_flag = true) := by
  constructor
  · intro f fs fp1 hp
    have h1 := (get_record_of_parse_line m f fs fp1 hp).1
    refine ⟨_, h1, ?_, ?_, rfl⟩
    · simp
    · simp only [record_values]
      rw [map_value_enumFrom]
  · intro record h
    exact get_record_select_flag m record h

/-- C11, witness: the line `x, y` gives a selected record of the two fields
`x` and `y`. -/
theorem record_assembly_witness :
    ∃ record, (gl_merge_text_get_record
      { src := none, delim := 44, line1_has_keys := false, fp := some [120, 44, 32, 121, 10],
        keys := [], n_fields_max := 0 }).1 = some record ∧
      record.field_list.length = ([120] :: [[121]]).length ∧
      record_values record = [120] :: [[121]] ∧
      record.select_flag = true :=
  (record_assembly
    { src := none, delim := 44, line1_has_keys := false, fp := some [120, 44, 32, 121, 10],
      keys := [], n_fields_max := 0 }).1 [120] [[121]] (some []) (by decide)

theorem get_record_of_parse_line_nil (m : glMergeText) (fp1 : Option (List Nat))
    (h : parse_line m.fp m.delim = ([], fp1)) :
    gl_merge_text_get_record m = (none, { m with fp := fp1 }) := by
  unfold gl_merge_text_get_record
  simp [h]

theorem get_record_values_congr (m1 m2 : glMergeText) (hfp : m1.fp = m2.fp)
    (hd : m1.delim = m2.delim) :
    (gl_merge_text_get_record m1).1.map record_values =
      (gl_merge_text_get_record m2).1.map record_values ∧
    (gl_merge_text_get_record m1).2.fp = (gl_merge_text_get_record m2).2.fp ∧
    (gl_merge_text_get_record m1).2.delim = (gl_merge_text_get_record m2).2.delim := by
  cases hp : parse_line m1.fp m1.delim with
  | mk l fp1 =>
    have hp2 : parse_line m2.fp m2.delim = (l, fp1) := by rw [← hfp, ← hd]; exact hp
    cases l with
    | nil =>
      rw [get_record_of_parse_line_nil m1 fp1 hp, get_record_of_parse_line_nil m2 fp1 hp2]
      exact ⟨rfl, rfl, hd⟩
    | cons f fs =>
      have h1 := get_record_values m1 (f :: fs) fp1 (by simp) hp
      have h2 := get_record_values m2 (f :: fs) fp1 (by simp) hp2
      exact ⟨h1.1.trans h2.1.symm, h1.2.1.trans h2.2.1.symm,
        (h1.2.2.trans hd).trans h2.2.2.symm⟩

theorem get_records_values_congr (n : Nat) :
    ∀ m1 m2 : glMergeText, m1.fp = m2.fp → m1.delim = m2.delim →
      (get_records n m1).1.map (Option.map record_values) =
        (get_records n m2).1.map (Option.map record_values) := by
  induction n with
  | zero => intro m1 m2 _ _; simp [get_records]
  | succ n ih =>
    intro m1 m2 hfp hd
    have h := get_record_values_congr m1 m2 hfp hd
    rw [get_records_succ, get_records_succ]
    simp only [List.map_cons, h.1, ih _ _ h.2.1 h.2.2]

/-- C12: with `line1_has_keys` set, `gl_merge_text_open` leaves the stream
where one call of `parse_line` leaves it, and the values of the records the
following calls of `gl_merge_text_get_record` return are those any source
with the same delimiter, one without header among them, returns on that
remainder of the stream; so the header line is not among the records. -/
theorem header_line_consumed (files : Files) (m m2 : glMergeText) (src : List Nat) (n : Nat)
    (hsrc : m.src = some src) (hhdr : m.line1_has_keys = true) (h2d : m2.delim = m.delim)
    (h2fp : m2.fp = (parse_line (open_stream files src) m.delim).2) :
    (gl_merge_text_open files m).fp = (parse_line (open_stream files src) m.delim).2 ∧
    (get_records n (gl_merge_text_open files m)).1.map (Option.map record_values) =
      (get_records n m2).1.map (Option.map record_values) := by
  have ho := open_header files m src hsrc hhdr
  have hfp : (gl_merge_text_open files m).fp =
      (parse_line (open_stream files src) m.delim).2 := by rw [ho]
  have hd : (gl_merge_text_open files m).delim = m.delim := by rw [ho]
  exact ⟨hfp, get_records_values_congr n _ _ (hfp.trans h2fp.symm) (hd.trans h2d.symm)⟩

/-- C12, witness: after the header `id,name` the records are those of the
rows `1,2` and `3`, then the end of data. -/
theorem header_line_consumed_witness :
    (gl_merge_text_open
      { stdin := [], fopen := fun _ => some [105, 100, 44, 110, 97, 109, 101, 10,
          49, 44, 50, 10, 51, 10] }
      { src := some [102], delim := 44, line1_has_keys := true, fp := none, keys := [],
        n_fields_max := 0 }).fp = some [49, 44, 50, 10, 51, 10] ∧
    (get_records 3 (gl_merge_text_open
      { stdin := [], fopen := fun _ => some [105, 100, 44, 110, 97, 109, 101, 10,
          49, 44, 50, 10, 51, 10] }
      { src := some [102], delim := 44, line1_has_keys := true, fp := none, keys := [],
        n_fields_max := 0 })).1.map (Option.map record_values) =
      [some [[49], [50]], some [[51]], none] :=
  header_line_consumed
    { stdin := [], fopen := fun _ => some [105, 100, 44, 110, 97, 109, 101, 10,
        49, 44, 50, 10, 51, 10] }
    { src := some [102], delim := 44, line1_has_keys := true, fp := none, keys := [],
      n_fields_max := 0 }
    { src := none, delim := 44, line1_has_keys := false, fp := some [49, 44, 50, 10, 51, 10],
      keys := [], n_fields_max := 0 }
    [102] 3 rfl rfl rfl (by decide)

theorem range_add_split (a j : Nat) :
    List.range (a + j) = List.range a ++ List.range' a j := by
  rw [List.range_eq_range', List.range_eq_range', Nat.add_comm, ← List.range'_append_1]
  simp

theorem map_range_prefix {α : Type} (f : Nat → α) {a b : Nat} (h : a ≤ b) :
    (List.range a).map f <+: (List.range b).map f := by
  obtain ⟨j, rfl⟩ : ∃ j, b = a + j := ⟨b - a, by omega⟩
  rw [range_add_split, List.map_append]
  exact List.prefix_append _ _

/-- C13: in every state of the source, the list of
`gl_merge_text_get_key_list` before a call of `gl_merge_text_get_record` is a
prefix of the list after it; with `line1_has_keys` set the list is unchanged,
and the counter `n_fields_max` never decreases. -/
theorem key_list_grows (m : glMergeText) :
    gl_merge_text_get_key_list m <+:
      gl_merge_text_get_key_list (gl_merge_text_get_record m).2 ∧
    (m.line1_has_keys = true →
      gl_merge_text_get_key_list (gl_merge_text_get_record m).2 =
        gl_merge_text_get_key_list m) ∧
    m.n_fields_max ≤ (gl_merge_text_get_record m).2.n_fields_max := by
  have hf := get_record_frame m
  have hmax : m.n_fields_max ≤ (gl_merge_text_get_record m).2.n_fields_max := by
    rw [get_record_n_fields_max]
    exact le_max_left _ _
  have hhead : m.line1_has_keys = true →
      gl_merge_text_get_key_list (gl_merge_text_get_record m).2 =
        gl_merge_text_get_key_list m := by
    intro hh
    rw [key_list_header _ (by rw [hf.2.1]; exact hh), key_list_header _ hh, hf.1]
  refine ⟨?_, hhead, hmax⟩
  by_cases hh : m.line1_has_keys = true
  · rw [hhead hh]
  · have hh2 : m.line1_has_keys = false := by simpa using hh
    rw [key_list_no_header _ hh2, key_list_no_header _ (by rw [hf.2.1]; exact hh2)]
    exact map_range_prefix _ hmax

/-- C13, witness: under the header `id`, `name` reading a row of three fields
leaves the key list `id`, `name`. -/
theorem key_list_grows_witness :
    gl_merge_text_get_key_list (gl_merge_text_get_record
      { src := none, delim := 44, line1_has_keys := true, fp := some [49, 44, 50, 44, 51, 10],
        keys := [[105, 100], [110, 97, 109, 101]], n_fields_max := 0 }).2 =
    gl_merge_text_get_key_list
      { src := none, delim := 44, line1_has_keys := true, fp := some [49, 44, 50, 44, 51, 10],
        keys := [[105, 100], [110, 97, 109, 101]], n_fields_max := 0 } :=
  (key_list_grows
    { src := none, delim := 44, line1_has_keys := true, fp := some [49, 44, 50, 44, 51, 10],
      keys := [[105, 100], [110, 97, 109, 101]], n_fields_max := 0 }).2.1 rfl

/-- C14: two sources with the same delimiter, header flag and source selector,
whatever keys and counter they hold, are in the same state after
`gl_merge_text_open` on the same files: the stored keys are the fields of the
first line of the new stream when `line1_has_keys` is set and none otherwise,
and the counter `n_fields_max` is zero. -/
theorem reopen_independence (files : Files) (m1 m2 : glMergeText) (src : List Nat)
    (h1 : m1.src = some src) (h2 : m2.src = some src) (hd : m1.delim = m2.delim)
    (hh : m1.line1_has_keys = m2.line1_has_keys) :
    gl_merge_text_open files m1 = gl_merge_text_open files m2 ∧
    (gl_merge_text_open files m1).keys = (gl_merge_text_open files m2).keys ∧
    (gl_merge_text_open files m1).keys =
      (if m1.line1_has_keys = true then (parse_line (open_stream files src) m1.delim).1
        else []) ∧
    (gl_merge_text_open files m1).n_fields_max = 0 ∧
    (gl_merge_text_open files m2).n_fields_max = 0 := by
  obtain ⟨s1, d1, k1, f1, ks1, n1⟩ := m1
  obtain ⟨s2, d2, k2, f2, ks2, n2⟩ := m2
  simp only at h1 h2 hd hh
  subst h1 h2 hd hh
  cases k1 <;> simp [gl_merge_text_open, clear_keys]

/-- C14, witness: a source holding the keys `x` and the counter 7 and a fresh
one, both opened on the header `id`, hold the key `id` and the counter 0. -/
theorem reopen_independence_witness :
    (gl_merge_text_open { stdin := [], fopen := fun _ => some [105, 100, 10, 49, 10] }
      { src := some [102], delim := 44, line1_has_keys := true, fp := some [57],
        keys := [[120]], n_fields_max := 7 }).keys =
    (gl_merge_text_open { stdin := [], fopen := fun _ => some [105, 100, 10, 49, 10] }
      { src := some [102], delim := 44, line1_has_keys := true, fp := none,
        keys := [], n_fields_max := 0 }).keys :=
  (reopen_independence { stdin := [], fopen := fun _ => some [105, 100, 10, 49, 10] }
    { src := some [102], delim := 44, line1_has_keys := true, fp := some [57],
      keys := [[120]], n_fields_max := 7 }
    { src := some [102], delim := 44, line1_has_keys := true, fp := none,
      keys := [], n_fields_max := 0 } [102] rfl rfl rfl rfl).2.1

/-- C15: in every state whose stream handle is unset,
`gl_merge_text_get_record` returns no record and leaves the whole object, the
keys, the counter and the configuration among it, unchanged. -/
theorem unset_stream_no_records (m : glMergeText) (h : m.fp = none) :
    (gl_merge_text_get_record m).1 = none ∧
    (gl_merge_text_get_record m).2 = m ∧
    (gl_merge_text_get_record m).2.keys = m.keys ∧
    (gl_merge_text_get_record m).2.n_fields_max = m.n_fields_max ∧
    (gl_merge_text_get_record m).2.delim = m.delim ∧
    (gl_merge_text_get_record m).2.line1_has_keys = m.line1_has_keys ∧
    (gl_merge_text_get_record m).2.src = m.src := by
  have hp : parse_line m.fp m.delim = ([], none) := by rw [h]; rfl
  have hg := get_record_of_parse_line_nil m none hp
  have hm : ({ m with fp := none } : glMergeText) = m := by
    obtain ⟨s, d, k, f, ks, n⟩ := m
    simp only at h
    subst h
    rfl
  rw [hg, hm]
  exact ⟨rfl, rfl, rfl, rfl, rfl, rfl, rfl⟩

/-- C15, witness: a closed source with a header and a counter gives no
record. -/
theorem unset_stream_no_records_witness :
    (gl_merge_text_get_record
      { src := some [102], delim := 44, line1_has_keys := true, fp := none,
        keys := [[105, 100]], n_fields_max := 3 }).1 = none :=
  (unset_stream_no_records
    { src := some [102], delim := 44, line1_has_keys := true, fp := none,
      keys := [[105, 100]], n_fields_max := 3 } rfl).1

/-- C16: `gl_merge_text_close` is idempotent; on a source whose stream is
unset it changes nothing, and on any source it changes the stream handle
only, which it unsets. -/
theorem close_idempotent (m : glMergeText) :
    gl_merge_text_close (gl_merge_text_close m) = gl_merge_text_close m ∧
    (m.fp = none → gl_merge_text_close m = m) ∧
    gl_merge_text_close m = { m with fp := none } := by
  obtain ⟨s, d, k, f, ks, n⟩ := m
  cases f <;> simp [gl_merge_text_close]

/-- C16, witness: closing a source that was never opened leaves it as it
is. -/
theorem close_idempotent_witness :
    gl_merge_text_close gl_merge_text_init = gl_merge_text_init :=
  (close_idempotent gl_merge_text_init).2.1 rfl

/-! ## Copying -/

theorem get_record_unset (m : glMergeText) (h : m.fp = none) :
    gl_merge_text_get_record m = (none, m) := by
  have hp : parse_line m.fp m.delim = ([], none) := by rw [h]; rfl
  rw [get_record_of_parse_line_nil m none hp]
  obtain ⟨s, d, k, f, ks, n⟩ := m
  simp only at h
  subst h
  rfl

theorem get_records_unset (n : Nat) (m : glMergeText) (h : m.fp = none) :
    get_records n m = (List.replicate n none, m) := by
  induction n with
  | zero => rfl
  | succ n ih =>
    rw [get_records_succ, get_record_unset m h]
    simp only [ih]
    rfl

/-- C17: after `gl_merge_text_copy` into a target without stored keys, the
target has the delimiter and the header flag of the source, and
`gl_merge_text_get_key_list` and `gl_merge_text_get_primary_key` give on it
what they give on the source, with `line1_has_keys` set or not. -/
theorem copy_reproduces_schema (s t : glMergeText) (ht : t.keys = []) :
    (gl_merge_text_copy t s).delim = s.delim ∧
    (gl_merge_text_copy t s).line1_has_keys = s.line1_has_keys ∧
    gl_merge_text_get_key_list (gl_merge_text_copy t s) = gl_merge_text_get_key_list s ∧
    gl_merge_text_get_primary_key (gl_merge_text_copy t s) =
      gl_merge_text_get_primary_key s := by
  have hk : (gl_merge_text_copy t s).keys = s.keys := by simp [gl_merge_text_copy, ht]
  have hh : (gl_merge_text_copy t s).line1_has_keys = s.line1_has_keys := rfl
  have hn : (gl_merge_text_copy t s).n_fields_max = s.n_fields_max := rfl
  have hkey : ∀ i, key_from_index (gl_merge_text_copy t s) i = key_from_index s i := by
    intro i
    unfold key_from_index
    rw [hh]
    cases s.line1_has_keys
    · rfl
    · simp only [if_true]
      by_cases hi : i < s.keys.length
      · rw [dif_pos hi, dif_pos (by rw [hk]; exact hi)]
        simp [hk]
      · rw [dif_neg hi, dif_neg (by rw [hk]; exact hi)]
  refine ⟨rfl, rfl, ?_, ?_⟩
  · unfold gl_merge_text_get_key_list
    rw [hh, hk, hn]
    exact List.map_congr_left (fun i _ => hkey i)
  · exact hkey 0

/-- C17, witness: a source with the header `id`, `name` copied into a fresh
object. -/
theorem copy_reproduces_schema_witness :
    gl_merge_text_get_key_list (gl_merge_text_copy gl_merge_text_init
      { src := some [102], delim := 44, line1_has_keys := true, fp := some [49, 10],
        keys := [[105, 100], [110, 97, 109, 101]], n_fields_max := 2 }) =
    gl_merge_text_get_key_list
      { src := some [102], delim := 44, line1_has_keys := true, fp := some [49, 10],
        keys := [[105, 100], [110, 97, 109, 101]], n_fields_max := 2 } :=
  (copy_reproduces_schema
    { src := some [102], delim := 44, line1_has_keys := true, fp := some [49, 10],
      keys := [[105, 100], [110, 97, 109, 101]], n_fields_max := 2 }
    gl_merge_text_init rfl).2.2.1

/-- C18: `gl_merge_text_copy` leaves the source object as it is and leaves the
stream handle of the target as it was; a target whose stream was unset, a
fresh one among them, gives no record after the copy, however often
`gl_merge_text_get_record` is called on it. -/
theorem copy_frame (s t : glMergeText) :
    (gl_merge_text_copy_objects t s).2 = s ∧
    (gl_merge_text_copy_objects t s).1.fp = t.fp ∧
    (gl_merge_text_copy_objects gl_merge_text_init s).1.fp = none ∧
    (t.fp = none → ∀ n, (get_records n (gl_merge_text_copy_objects t s).1).1 =
      List.replicate n none) := by
  refine ⟨rfl, rfl, rfl, ?_⟩
  intro ht n
  rw [get_records_unset n _ (by exact ht)]

/-- C18, witness: the fresh copy of an open source gives no record on three
calls. -/
theorem copy_frame_witness :
    (get_records 3 (gl_merge_text_copy_objects gl_merge_text_init
      { src := some [102], delim := 44, line1_has_keys := false, fp := some [49, 10],
        keys := [], n_fields_max := 1 }).1).1 = List.replicate 3 none :=
  (copy_frame
    { src := some [102], delim := 44, line1_has_keys := false, fp := some [49, 10],
      keys := [], n_fields_max := 1 } gl_merge_text_init).2.2.2 rfl 3

/-! ## The normalizer after a closing quote, and carriage returns -/

theorem parse_field_loop_nil (st : FieldState) (acc : List Nat) :
    parse_field_loop st acc [] = acc := by
  cases st <;> rfl

theorem parse_field_loop_append (a b : List Nat) :
    ∀ st acc, parse_field_loop st acc (a ++ b) =
      parse_field_loop (field_state_after st a) (parse_field_loop st acc a) b := by
  induction a with
  | nil => intro st acc; simp [field_state_after, parse_field_loop_nil]
  | cons c cs ih =>
    intro st acc
    have hfold : ∀ st1, field_state_after st1 (c :: cs) =
        field_state_after (field_next_state st1 c) cs := fun _ => rfl
    rw [hfold]
    cases st <;> simp only [List.cons_append, parse_field_loop, field_next_state] <;>
      (try split_ifs) <;> exact ih _ _

theorem parse_field_loop_prefix (s : List Nat) :
    ∀ st acc, acc <+: parse_field_loop st acc s := by
  induction s with
  | nil => intro st acc; rw [parse_field_loop_nil]
  | cons c cs ih =>
    intro st acc
    cases st <;> simp only [parse_field_loop] <;> (try split_ifs) <;>
      first
      | exact ih _ _
      | exact (List.prefix_append _ _).trans (ih _ _)

theorem g_strstrip_concat_cr (r : List Nat) : g_strstrip (r ++ [13]) = g_strstrip r := by
  unfold g_strstrip g_strchomp g_strchug
  by_cases h : ∀ x ∈ r, g_ascii_isspace x = true
  · have h1 : List.dropWhile g_ascii_isspace (r ++ [13]) = [] := by
      rw [List.dropWhile_eq_nil_iff]
      intro x hx
      rcases List.mem_append.1 hx with hx | hx
      · exact h x hx
      · simp only [List.mem_singleton] at hx
        subst hx
        decide
    have h2 : List.dropWhile g_ascii_isspace r = [] := List.dropWhile_eq_nil_iff.2 h
    rw [h1, h2]
  · have hne : List.dropWhile g_ascii_isspace r ≠ [] := fun h0 =>
      h (List.dropWhile_eq_nil_iff.1 h0)
    obtain ⟨b, w, hbw⟩ : ∃ b w, List.dropWhile g_ascii_isspace r = b :: w := by
      cases hd : List.dropWhile g_ascii_isspace r with
      | nil => exact absurd hd hne
      | cons b w => exact ⟨b, w, rfl⟩
    have hb : g_ascii_isspace b = false := by
      have := List.head_dropWhile_not g_ascii_isspace r hne
      simp only [hbw, List.head_cons] at this
      simpa using this
    have hsplit : r = List.takeWhile g_ascii_isspace r ++ b :: w := by
      rw [← hbw, List.takeWhile_append_dropWhile]
    have h1 : List.dropWhile g_ascii_isspace (r ++ [13]) =
        List.dropWhile g_ascii_isspace r ++ [13] := by
      conv_lhs => rw [hsplit, List.append_assoc, List.cons_append]
      rw [dropWhile_append_cons_neg _ b _ hb, List.dropWhile_eq_nil_iff.2
        (fun x hx => List.mem_takeWhile_imp hx), hbw]
      simp
    rw [h1, List.rdropWhile_concat_pos _ _ _ (by decide)]

theorem cstr_concat (r : List Nat) (c : Nat) (hc : c ≠ 0) :
    cstr (r ++ [c]) = cstr r ∨ cstr (r ++ [c]) = cstr r ++ [c] := by
  have hcb : (c != 0) = true := by simpa using hc
  induction r with
  | nil => right; simp [cstr, List.takeWhile_cons, hcb]
  | cons x xs ih =>
    by_cases hx : x = 0
    · left; simp [cstr, List.takeWhile_cons, hx]
    · have hxb : (x != 0) = true := by simpa using hx
      unfold cstr at ih ⊢
      rcases ih with ih | ih
      · left; simp only [List.cons_append, List.takeWhile_cons, hxb, if_true, ih]
      · right; simp only [List.cons_append, List.takeWhile_cons, hxb, if_true, ih]

theorem parse_field_concat_cr (raw : List Nat) : parse_field (raw ++ [13]) = parse_field raw := by
  unfold parse_field
  simp only
  have hc := cstr_concat raw 13 (by decide)
  by_cases hz : cstr (raw ++ [13]) = cstr raw
  · rw [hz]
  · rcases hc with hc | hc
    · exact absurd hc hz
    · rw [hc, g_strstrip_concat_cr]

/-- C19, as stated, fails: after a closing quote a CR is dropped with the
scanner back in quoted mode, so that `"a"` CR `""` gives `a"` where normal
mode at the CR gives `a`; and a backslash is appended as it is, so that `"a"\n`
gives `a\n` where normal mode at the backslash gives `a` LF. -/
theorem after_closing_quote_cr_and_backslash :
    parse_field [34, 97, 34, 13, 34, 34] = [97, 34] ∧
    parse_field_loop .NORMAL [97] (13 :: [34, 34]) = [97] ∧
    parse_field_loop .QUOTED [97] (34 :: 13 :: [34, 34]) ≠
      parse_field_loop .NORMAL [97] (13 :: [34, 34]) ∧
    parse_field [34, 97, 34, 92, 110] = [97, 92, 110] ∧
    parse_field_loop .NORMAL [97] (92 :: [110]) = [97, 10] ∧
    parse_field_loop .QUOTED [97] (34 :: 92 :: [110]) ≠
      parse_field_loop .NORMAL [97] (92 :: [110]) := by
  decide

/-- C19, amended: when a double-quote seen in quoted mode is followed by a
character `c` other than a double-quote, a backslash and CR, the quote is not
emitted and the output for `c` and the rest of the text is what the scanner
produces from normal mode at `c`; when it is followed by CR, the quote and the
CR are not emitted and the scanner goes on in quoted mode. -/
theorem after_closing_quote (acc cs : List Nat) (c : Nat) :
    (c ≠ 34 → c ≠ 92 → c ≠ 13 →
      parse_field_loop .QUOTED acc (34 :: c :: cs) =
        parse_field_loop .NORMAL acc (c :: cs)) ∧
    parse_field_loop .QUOTED acc (34 :: 13 :: cs) = parse_field_loop .QUOTED acc cs := by
  constructor
  · intro h1 h2 h3
    simp [parse_field_loop, h1, h2, h3]
  · simp [parse_field_loop]

/-- C19, witness: in `"a"b c` the text `b c` after the closing quote is
scanned as in normal mode. -/
theorem after_closing_quote_witness :
    parse_field_loop .QUOTED [97] (34 :: 98 :: [32, 99]) =
      parse_field_loop .NORMAL [97] (98 :: [32, 99]) :=
  (after_closing_quote [97] [32, 99] 98).1 (by decide) (by decide) (by decide)

/-- C20, as stated, fails: in the raw field `a\` CR the CR follows an escaping
backslash and is the last character, and it is not emitted: the strip of
pass 1 removes it before the escape is resolved. -/
theorem escaped_final_cr_dropped :
    parse_field [97, 92, 13] = [97] ∧ parse_field [97, 92, 13] ≠ [97, 13] := by
  decide

/-- C20, amended: a CR that ends the raw field is removed, escaped or not;
in the stripped text that pass 2 scans, a CR read right after an escaping
backslash (the scanner being in an escaped state) is appended to the output,
a CR read in any other state adds nothing to it, and what has been appended
stays in front of the result. -/
theorem carriage_returns (raw a b : List Nat) :
    parse_field (raw ++ [13]) = parse_field raw ∧
    parse_field raw = parse_field_loop .NORMAL [] (g_strstrip (cstr raw)) ∧
    ((field_state_after .NORMAL a = .NORMAL_ESCAPED ∨
        field_state_after .NORMAL a = .QUOTED_ESCAPED) →
      parse_field_loop .NORMAL [] (a ++ 13 :: b) =
        parse_field_loop (field_next_state (field_state_after .NORMAL a) 13)
          (parse_field_loop .NORMAL [] a ++ [13]) b) ∧
    (field_state_after .NORMAL a ≠ .NORMAL_ESCAPED →
      field_state_after .NORMAL a ≠ .QUOTED_ESCAPED →
      parse_field_loop .NORMAL [] (a ++ 13 :: b) =
        parse_field_loop (field_next_state (field_state_after .NORMAL a) 13)
          (parse_field_loop .NORMAL [] a) b) ∧
    (∀ st acc s, acc <+: parse_field_loop st acc s) := by
  refine ⟨parse_field_concat_cr raw, rfl, ?_, ?_, fun st acc s => parse_field_loop_prefix s st acc⟩
  · intro h
    rw [parse_field_loop_append]
    rcases h with h | h <;> rw [h] <;> simp [parse_field_loop, field_next_state]
  · intro h1 h2
    rw [parse_field_loop_append]
    cases hst : field_state_after .NORMAL a <;>
      simp_all [parse_field_loop, field_next_state]

/-- C20, witness: in `a\` CR `b` the CR is escaped and kept, in `a` CR `b` it
is dropped. -/
theorem carriage_returns_witness :
    parse_field_loop .NORMAL [] ([97, 92] ++ 13 :: [98]) =
      parse_field_loop (field_next_state (field_state_after .NORMAL [97, 92]) 13)
        (parse_field_loop .NORMAL [] [97, 92] ++ [13]) [98] ∧
    parse_field_loop .NORMAL [] ([97] ++ 13 :: [98]) =
      parse_field_loop (field_next_state (field_state_after .NORMAL [97]) 13)
        (parse_field_loop .NORMAL [] [97]) [98] ∧
    parse_field [97, 92, 13, 98] = [97, 13, 98] ∧
    parse_field [97, 13, 98] = [97, 98] :=
  ⟨(carriage_returns [] [97, 92] [98]).2.2.1 (Or.inl (by decide)),
   (carriage_returns [] [97] [98]).2.2.2.1 (by decide) (by decide),
   by decide, by decide⟩

/-! ## Copying appends, termination of the tokenizer -/

/-- C27: after `gl_merge_text_copy` the stored keys of the target are its
previous keys followed by the keys of the source, which is the keys of the
source exactly when the target had none; the delimiter, the header flag and
the counter of the target are those of the source. -/
theorem copy_appends_keys (s t : glMergeText) :
    (gl_merge_text_copy t s).keys = t.keys ++ s.keys ∧
    ((gl_merge_text_copy t s).keys = s.keys ↔ t.keys = []) ∧
    (gl_merge_text_copy t s).delim = s.delim ∧
    (gl_merge_text_copy t s).line1_has_keys = s.line1_has_keys ∧
    (gl_merge_text_copy t s).n_fields_max = s.n_fields_max := by
  refine ⟨rfl, ?_, rfl, rfl, rfl⟩
  show t.keys ++ s.keys = s.keys ↔ t.keys = []
  exact List.append_left_eq_self

theorem parse_line_while_succ (d fuel : Nat) (v : LineVars) (h : v.state ≠ .DONE) :
    parse_line_while d (fuel + 1) v = parse_line_while d fuel (parse_line_iteration d v) := by
  simp [parse_line_while, h]

theorem parse_line_while_done (d fuel : Nat) (v : LineVars) (h : v.state = .DONE) :
    parse_line_while d fuel v = some v := by
  cases fuel <;> simp [parse_line_while, h]

theorem toDone_ne_done (st : LineState) : st.toDone ≠ .DONE := by
  cases st <;> simp [LineState.toDone]

theorem parse_line_iteration_cons (d : Nat) (st : LineState) (string : List Nat)
    (list : List (List Nat)) (c : Nat) (cs : List Nat) (n : Nat) :
    (∃ string1 list1,
      parse_line_iteration d
          { state := st.toDone, string := string, list := list, fp := c :: cs, reads := n,
            assert_hit := false } =
        { state := .DONE, string := string1, list := list1, fp := cs, reads := n + 1,
          assert_hit := false } ∧
      parse_line_loop d st string list (c :: cs) = (list1, cs)) ∨
    (∃ st1 string1 list1,
      parse_line_iteration d
          { state := st.toDone, string := string, list := list, fp := c :: cs, reads := n,
            assert_hit := false } =
        { state := LineState.toDone st1, string := string1, list := list1, fp := cs,
          reads := n + 1, assert_hit := false } ∧
      parse_line_loop d st string list (c :: cs) = parse_line_loop d st1 string1 list1 cs) := by
  cases st <;>
    simp only [parse_line_iteration, parse_line_loop, LineState.toDone, List.head?_cons,
      List.tail_cons, Option.some.injEq] <;>
    (try split_ifs) <;>
    (try subst_vars) <;>
    first
    | exact Or.inl ⟨_, _, rfl, rfl⟩
    | exact Or.inr ⟨.NORMAL, _, _, rfl, rfl⟩
    | exact Or.inr ⟨.QUOTED, _, _, rfl, rfl⟩
    | exact Or.inr ⟨.QUOTED_QUOTE1, _, _, rfl, rfl⟩
    | exact Or.inr ⟨.NORMAL_ESCAPED, _, _, rfl, rfl⟩
    | exact Or.inr ⟨.QUOTED_ESCAPED, _, _, rfl, rfl⟩

theorem parse_line_iteration_nil (d : Nat) (st : LineState) (string : List Nat)
    (list : List (List Nat)) (n : Nat) :
    ∃ string1,
      parse_line_iteration d
          { state := st.toDone, string := string, list := list, fp := [], reads := n,
            assert_hit := false } =
        { state := .DONE, string := string1,
          list := (parse_line_loop d st string list []).1, fp := [], reads := n + 1,
          assert_hit := false } ∧
      (parse_line_loop d st string list []).2 = [] := by
  cases st <;> exact ⟨_, rfl, rfl⟩

theorem parse_line_while_loop (d : Nat) (fp : List Nat) :
    ∀ (st : LineState) (string : List Nat) (list : List (List Nat)) (n : Nat),
      ∃ v, parse_line_while d (fp.length + 1)
          { state := st.toDone, string := string, list := list, fp := fp, reads := n,
            assert_hit := false } = some v ∧
        v.state = .DONE ∧ v.assert_hit = false ∧ v.reads ≤ n + fp.length + 1 ∧
        (v.list, v.fp) = parse_line_loop d st string list fp := by
  induction fp with
  | nil =>
    intro st string list n
    obtain ⟨string1, h1, h2⟩ := parse_line_iteration_nil d st string list n
    refine ⟨LineVars.mk .DONE string1 (parse_line_loop d st string list []).1 [] (n + 1)
      false, ?_, rfl, rfl, ?_, ?_⟩
    · rw [List.length_nil, parse_line_while_succ _ _ _ (toDone_ne_done st), h1]
      exact parse_line_while_done _ _ _ rfl
    · simp
    · exact Prod.ext rfl h2.symm
  | cons c cs ih =>
    intro st string list n
    rw [List.length_cons, parse_line_while_succ _ _ _ (toDone_ne_done st)]
    rcases parse_line_iteration_cons d st string list c cs n with
      ⟨string1, list1, h1, h2⟩ | ⟨st1, string1, list1, h1, h2⟩
    · rw [h1, h2, parse_line_while_done _ _ _ rfl]
      exact ⟨_, rfl, rfl, rfl, by simp, rfl⟩
    · rw [h1, h2]
      obtain ⟨v, e1, e2, e3, e4, e5⟩ := ih st1 string1 list1 (n + 1)
      exact ⟨v, e1, e2, e3, by omega, e5⟩

/-- C21: for every delimiter and every finite stream, the loop of `parse_line`
reaches `DONE` within as many iterations as there are characters left plus
one, having called `getc` at most once per character left plus once for the
end of the stream, without hitting `g_assert_not_reached`; the list it then
returns and the stream it leaves are those of `parse_line`. -/
theorem parse_line_terminates (d : Nat) (fp : List Nat) :
    ∃ v, parse_line_while d (fp.length + 1) (parse_line_entry fp) = some v ∧
      v.state = .DONE ∧ v.assert_hit = false ∧ v.reads ≤ fp.length + 1 ∧
      (v.list, some v.fp) = parse_line (some fp) d := by
  obtain ⟨v, h1, h2, h3, h4, h5⟩ := parse_line_while_loop d fp .BEGIN [] [] 0
  refine ⟨v, h1, h2, h3, by omega, ?_⟩
  have h6 := congrArg Prod.fst h5
  have h7 := congrArg Prod.snd h5
  simp only at h6 h7
  simp [parse_line, h6, h7]

/-! ## Uniqueness of the keys -/

theorem foldl_decimal_digits (fuel : Nat) :
    ∀ n acc, n < fuel →
      (decimal_digits fuel n acc).foldl (fun a c => 10 * a + (c - 48)) 0 =
        acc.foldl (fun a c => 10 * a + (c - 48)) n := by
  induction fuel with
  | zero => intro n acc h; omega
  | succ fuel ih =>
    intro n acc h
    unfold decimal_digits
    split_ifs with h10
    · simp
    · rw [ih (n / 10) _ (by omega)]
      simp only [List.foldl_cons]
      congr 1
      omega

theorem decimal_value_printf (n : Nat) : decimal_value (g_strdup_printf_d n) = n := by
  unfold decimal_value g_strdup_printf_d
  rw [foldl_decimal_digits (n + 1) n [] (by omega)]
  rfl

theorem g_strdup_printf_d_injective : Function.Injective g_strdup_printf_d := by
  intro a b h
  have := congrArg decimal_value h
  rwa [decimal_value_printf, decimal_value_printf] at this

theorem key_list_no_header_nodup (m : glMergeText) (h : m.line1_has_keys = false) :
    (gl_merge_text_get_key_list m).Nodup := by
  rw [key_list_no_header m h]
  apply List.Nodup.map
  · intro a b hab
    have := g_strdup_printf_d_injective hab
    omega
  · exact List.nodup_range _

/-- C22, as stated, fails: with `line1_has_keys` set, the header line `a,a`
gives the key list `a`, `a`, which holds the same string twice. -/
theorem header_keys_may_collide :
    gl_merge_text_get_key_list (gl_merge_text_open
      { stdin := [], fopen := fun _ => some [97, 44, 97, 10, 49, 44, 50, 10] }
      { src := some [102], delim := 44, line1_has_keys := true, fp := none, keys := [],
        n_fields_max := 0 }) = [[97], [97]] ∧
    ¬ (gl_merge_text_get_key_list (gl_merge_text_open
      { stdin := [], fopen := fun _ => some [97, 44, 97, 10, 49, 44, 50, 10] }
      { src := some [102], delim := 44, line1_has_keys := true, fp := none, keys := [],
        n_fields_max := 0 })).Nodup := by
  decide

/-- C22, amended: without header, in every state of the source the list of
`gl_merge_text_get_key_list` holds no string twice; with `line1_has_keys` set
the list is the stored header keys, after an open and any number of reads the
fields of the header line, and it holds no string twice exactly when these
are pairwise distinct. -/
theorem key_list_unique (files : Files) (m : glMergeText) (src : List Nat) (n : Nat) :
    (m.line1_has_keys = false → (gl_merge_text_get_key_list m).Nodup) ∧
    (m.line1_has_keys = false → m.src = some src →
      (gl_merge_text_get_key_list (get_records n (gl_merge_text_open files m)).2).Nodup) ∧
    (m.line1_has_keys = true →
      ((gl_merge_text_get_key_list m).Nodup ↔ m.keys.Nodup)) ∧
    (m.line1_has_keys = true → m.src = some src →
      ((gl_merge_text_get_key_list (get_records n (gl_merge_text_open files m)).2).Nodup ↔
        (parse_line (open_stream files src) m.delim).1.Nodup)) := by
  refine ⟨key_list_no_header_nodup m, ?_, ?_, ?_⟩
  · intro hh hsrc
    apply key_list_no_header_nodup
    rw [(get_records_frame n _).2.1, open_no_header files m src hsrc hh]
    exact hh
  · intro hh
    rw [key_list_header m hh]
  · intro hh hsrc
    have ho := open_header files m src hsrc hh
    have hf := get_records_frame n (gl_merge_text_open files m)
    rw [key_list_header _ (by rw [hf.2.1, ho]; exact hh), hf.1, ho]

/-- C22, witness: without header, after a row of three fields the keys `1`,
`2`, `3` are pairwise distinct. -/
theorem key_list_unique_witness :
    (gl_merge_text_get_key_list (get_records 1 (gl_merge_text_open
      { stdin := [], fopen := fun _ => some [97, 44, 97, 44, 97, 10] }
      { src := some [102], delim := 44, line1_has_keys := false, fp := none, keys := [],
        n_fields_max := 0 })).2).Nodup :=
  (key_list_unique
    { stdin := [], fopen := fun _ => some [97, 44, 97, 44, 97, 10] }
    { src := some [102], delim := 44, line1_has_keys := false, fp := none, keys := [],
      n_fields_max := 0 } [102] 1).2.1 rfl rfl

/-! ## Escaped characters, text after a quote, end of stream, CRLF -/

theorem parse_line_loop_begin_eq_normal (d : Nat) (list : List (List Nat)) (c : Nat)
    (cs : List Nat) :
    parse_line_loop d .BEGIN [] list (c :: cs) = parse_line_loop d .NORMAL [] list (c :: cs) := by
  have hpf : parse_field [] = [] := by decide
  simp only [parse_line_loop, hpf]

theorem parse_line_loop_normal_plain (d : Nat) (tail : List Nat) (r : List Nat) :
    ∀ string list, (∀ x ∈ r, x ≠ d ∧ x ≠ 34 ∧ x ≠ 92 ∧ x ≠ 10) →
      parse_line_loop d .NORMAL string list (r ++ tail) =
        parse_line_loop d .NORMAL (string ++ r) list tail := by
  induction r with
  | nil => intro string list _; simp
  | cons x xs ih =>
    intro string list h
    have hx := h x (List.mem_cons_self _ _)
    have hxs := ih (string ++ [x]) list (fun y hy => h y (List.mem_cons_of_mem _ hy))
    simp [parse_line_loop, hx.1, hx.2.1, hx.2.2.1, hx.2.2.2, hxs]

theorem parse_line_loop_quoted_plain (d : Nat) (tail : List Nat) (r : List Nat) :
    ∀ string list, (∀ x ∈ r, x ≠ 34 ∧ x ≠ 92) →
      parse_line_loop d .QUOTED string list (r ++ tail) =
        parse_line_loop d .QUOTED (string ++ r) list tail := by
  induction r with
  | nil => intro string list _; simp
  | cons x xs ih =>
    intro string list h
    have hx := h x (List.mem_cons_self _ _)
    have hxs := ih (string ++ [x]) list (fun y hy => h y (List.mem_cons_of_mem _ hy))
    simp [parse_line_loop, hx.1, hx.2, hxs]

theorem rdropWhile_append_cons_neg (p : Nat → Bool) (a : List Nat) (x : Nat)
    (hx : p x = false) (b : List Nat) :
    (a ++ x :: b).rdropWhile p = a ++ x :: b.rdropWhile p := by
  by_cases hb : ∀ y ∈ b, p y = true
  · have h1 := rdropWhile_append_of_all p (a ++ [x]) b hb
    have h2 : List.rdropWhile p (a ++ [x]) = a ++ [x] :=
      List.rdropWhile_concat_neg _ _ _ (by simp [hx])
    have h3 : List.rdropWhile p b = [] := List.rdropWhile_eq_nil_iff.2 hb
    simp only [List.append_assoc, List.singleton_append] at h1 h2
    rw [h1, h2, h3]
  · have h3 : List.rdropWhile p b ≠ [] := fun h => hb (List.rdropWhile_eq_nil_iff.1 h)
    have h1 := rdropWhile_append_of_ne_nil p (a ++ [x]) b h3
    simpa using h1

theorem parse_field_escape (u v : List Nat) (c : Nat)
    (hu : ∀ x ∈ u, x ≠ 34 ∧ x ≠ 92 ∧ x ≠ 13 ∧ x ≠ 0)
    (hv : ∀ x ∈ v, x ≠ 34 ∧ x ≠ 92 ∧ x ≠ 13 ∧ x ≠ 0) (hc : c ≠ 0)
    (hcv : g_ascii_isspace c = false ∨ ∃ x ∈ v, g_ascii_isspace x = false) :
    parse_field (u ++ [92] ++ [c] ++ v) =
      g_strchug u ++ [escaped_char c] ++ g_strchomp v := by
  have hz : ∀ x ∈ u ++ [92] ++ [c] ++ v, x ≠ 0 := by
    intro x hx
    simp only [List.mem_append, List.mem_singleton] at hx
    rcases hx with ((hx | hx) | hx) | hx
    · exact (hu x hx).2.2.2
    · omega
    · omega
    · exact (hv x hx).2.2.2
  unfold parse_field
  rw [cstr_eq_self hz]
  have e1 : u ++ [92] ++ [c] ++ v = u ++ 92 :: c :: v := by simp
  have e2 : g_strchug u ++ [escaped_char c] ++ g_strchomp v =
      g_strchug u ++ escaped_char c :: g_strchomp v := by simp
  rw [e1, e2, g_strstrip_escape u v c hcv]
  have hcu : ∀ x ∈ g_strchug u, x ≠ 92 ∧ x ≠ 34 ∧ x ≠ 13 := fun x hx =>
    have hm := hu x ((List.dropWhile_suffix g_ascii_isspace).subset hx)
    ⟨hm.2.1, hm.1, hm.2.2.1⟩
  have hcv2 : ∀ x ∈ g_strchomp v, x ≠ 92 ∧ x ≠ 34 ∧ x ≠ 13 := fun x hx =>
    have hm := hv x ((List.rdropWhile_prefix g_ascii_isspace _).subset hx)
    ⟨hm.2.1, hm.1, hm.2.2.1⟩
  rw [parse_field_loop_normal_append _ _ _ hcu, parse_field_loop_normal_backslash,
    parse_field_loop_normal_escaped, parse_field_loop_normal_plain _ _ hcv2]
  simp

theorem parse_line_escaped (d : Nat) (u v rest : List Nat) (c : Nat) (hd : d ≠ 92 ∧ d ≠ 10)
    (hu : ∀ x ∈ u, x ≠ d ∧ x ≠ 34 ∧ x ≠ 92 ∧ x ≠ 10)
    (hv : ∀ x ∈ v, x ≠ d ∧ x ≠ 34 ∧ x ≠ 92 ∧ x ≠ 10) :
    parse_line (some (u ++ [92] ++ [c] ++ v ++ 10 :: rest)) d =
      ([parse_field (u ++ [92] ++ [c] ++ v)], some rest) := by
  have h92 : ¬ (92 = d) := fun h => hd.1 h.symm
  have h10 : ¬ (10 = d) := fun h => hd.2 h.symm
  have e : u ++ [92] ++ [c] ++ v ++ 10 :: rest = u ++ (92 :: c :: (v ++ 10 :: rest)) := by simp
  have hn : parse_line_loop d .NORMAL [] [] (u ++ (92 :: c :: (v ++ 10 :: rest))) =
      ([parse_field (u ++ [92] ++ [c] ++ v)], rest) := by
    rw [parse_line_loop_normal_plain d _ u [] [] hu]
    simp only [parse_line_loop, h92, if_false, if_true, show ¬ ((92 : Nat) = 34) by decide]
    rw [parse_line_loop_normal_plain d _ v _ [] hv]
    simp [parse_line_loop, h10]
  unfold parse_line
  simp only
  rw [e]
  cases u with
  | nil =>
    simp only [List.nil_append] at hn ⊢
    rw [parse_line_loop_begin_eq_normal, hn]
  | cons x xs =>
    simp only [List.cons_append] at hn ⊢
    rw [parse_line_loop_begin_eq_normal, hn]

/-- C23, as stated, fails when white space is space, TAB, LF, VT, FF and CR:
with the delimiter `,` the stream `a`, backslash, `,`, `b`, VT, LF gives the
single field `a,b` VT, where the claim gives `a,b`. -/
theorem escaped_char_vertical_tab_kept :
    parse_line (some ([97] ++ [92] ++ [44] ++ [98, 11] ++ 10 :: [])) 44 =
      ([[97, 44, 98, 11]], some []) ∧
    lstrip_isspace_c [97] ++ [44] ++ rstrip_isspace_c [98, 11] = [97, 44, 98] ∧
    (parse_line (some ([97] ++ [92] ++ [44] ++ [98, 11] ++ 10 :: [])) 44).1 ≠
      [lstrip_isspace_c [97] ++ [44] ++ rstrip_isspace_c [98, 11]] := by
  decide

/-- C23, amended: white space being that of `g_strstrip` (space, TAB, LF, FF
and CR), for every delimiter `d` other than the backslash and LF, all strings
`u`, `v` without double-quote, backslash, CR, LF, NUL and `d`, `v` holding a
character that is not white space, and every non-NUL character `c`, the stream
`u`, backslash, `c`, `v`, LF gives the single field
`parse_field (u \ c v)`; that field is `u` without its leading white space,
`c`, `v` without its trailing white space when `c` is the delimiter (not `n`
or `t`) and when `c` is LF. -/
theorem escaped_char_keeps_field (d : Nat) (u v rest : List Nat) (c : Nat)
    (hd : d ≠ 92 ∧ d ≠ 10)
    (hu : ∀ x ∈ u, x ≠ 34 ∧ x ≠ 92 ∧ x ≠ 13 ∧ x ≠ 10 ∧ x ≠ 0 ∧ x ≠ d)
    (hv : ∀ x ∈ v, x ≠ 34 ∧ x ≠ 92 ∧ x ≠ 13 ∧ x ≠ 10 ∧ x ≠ 0 ∧ x ≠ d)
    (hvw : ∃ x ∈ v, g_ascii_isspace x = false) (hc : c ≠ 0) :
    parse_line (some (u ++ [92] ++ [c] ++ v ++ 10 :: rest)) d =
      ([parse_field (u ++ [92] ++ [c] ++ v)], some rest) ∧
    (c = d → d ≠ 110 → d ≠ 116 →
      parse_field (u ++ [92] ++ [c] ++ v) = g_strchug u ++ [d] ++ g_strchomp v) ∧
    (c = 10 →
      parse_field (u ++ [92] ++ [c] ++ v) = g_strchug u ++ [10] ++ g_strchomp v) := by
  have hpf := parse_field_escape u v c
    (fun x hx => ⟨(hu x hx).1, (hu x hx).2.1, (hu x hx).2.2.1, (hu x hx).2.2.2.2.1⟩)
    (fun x hx => ⟨(hv x hx).1, (hv x hx).2.1, (hv x hx).2.2.1, (hv x hx).2.2.2.2.1⟩)
    hc (Or.inr hvw)
  refine ⟨parse_line_escaped d u v rest c hd
    (fun x hx => ⟨(hu x hx).2.2.2.2.2, (hu x hx).1, (hu x hx).2.1, (hu x hx).2.2.2.1⟩)
    (fun x hx => ⟨(hv x hx).2.2.2.2.2, (hv x hx).1, (hv x hx).2.1, (hv x hx).2.2.2.1⟩),
    ?_, ?_⟩
  · intro hcd h1 h2
    rw [hpf, hcd]
    simp [escaped_char, h1, h2]
  · intro hc10
    rw [hpf, hc10]
    simp [escaped_char]

/-- C23, witness: with the delimiter `,` the streams `a\,b` LF and `a\` LF `b`
LF each give one field, `a,b` and `a` LF `b`. -/
theorem escaped_char_keeps_field_witness :
    parse_line (some ([97] ++ [92] ++ [44] ++ [98] ++ 10 :: [])) 44 =
      ([parse_field ([97] ++ [92] ++ [44] ++ [98])], some []) ∧
    parse_field ([97] ++ [92] ++ [44] ++ [98]) = g_strchug [97] ++ [44] ++ g_strchomp [98] ∧
    parse_line (some [97, 92, 10, 98, 10]) 44 = ([[97, 10, 98]], some []) :=
  ⟨(escaped_char_keeps_field 44 [97] [98] [] 44 (by decide) (by decide) (by decide)
      ⟨98, by decide, by decide⟩ (by decide)).1,
   (escaped_char_keeps_field 44 [97] [98] [] 44 (by decide) (by decide) (by decide)
      ⟨98, by decide, by decide⟩ (by decide)).2.1 rfl (by decide) (by decide),
   by decide⟩

theorem parse_line_loop_quote1_plain (d : Nat) (rest : List Nat) (hd : d ≠ 10)
    (string : List Nat) (list : List (List Nat)) (r : List Nat)
    (hr : ∀ x ∈ r, x ≠ d ∧ x ≠ 34 ∧ x ≠ 92 ∧ x ≠ 10) :
    parse_line_loop d .QUOTED_QUOTE1 string list (r ++ 10 :: rest) =
      (list ++ [parse_field (string ++ r)], rest) := by
  have h10 : ¬ (10 = d) := fun h => hd h.symm
  cases r with
  | nil => simp [parse_line_loop, h10]
  | cons x xs =>
    have hx := hr x (List.mem_cons_self _ _)
    have hxs : ∀ y ∈ xs, y ≠ d ∧ y ≠ 34 ∧ y ≠ 92 ∧ y ≠ 10 :=
      fun y hy => hr y (List.mem_cons_of_mem _ hy)
    have hstep : parse_line_loop d .QUOTED_QUOTE1 string list (x :: (xs ++ 10 :: rest)) =
        parse_line_loop d .NORMAL (string ++ [x]) list (xs ++ 10 :: rest) := by
      simp [parse_line_loop, hx.1, hx.2.1, hx.2.2.2]
    rw [List.cons_append, hstep, parse_line_loop_normal_plain d _ xs _ _ hxs]
    simp [parse_line_loop, h10]

theorem parse_field_loop_quote1_plain (acc b : List Nat)
    (hb : ∀ x ∈ b, x ≠ 92 ∧ x ≠ 34 ∧ x ≠ 13) :
    parse_field_loop .QUOTED_QUOTE1 acc b = acc ++ b := by
  cases b with
  | nil => simp [parse_field_loop]
  | cons x xs =>
    have hx := hb x (List.mem_cons_self _ _)
    simp only [parse_field_loop, hx.2.1, hx.2.2, if_false]
    rw [parse_field_loop_normal_plain xs _ (fun y hy => hb y (List.mem_cons_of_mem _ hy))]
    simp

theorem parse_field_quoted_then_plain (a b : List Nat)
    (ha : ∀ x ∈ a, x ≠ 34 ∧ x ≠ 92 ∧ x ≠ 13 ∧ x ≠ 0)
    (hb : ∀ x ∈ b, x ≠ 34 ∧ x ≠ 92 ∧ x ≠ 13 ∧ x ≠ 0) :
    parse_field ([34] ++ a ++ [34] ++ b) = a ++ g_strchomp b := by
  have hz : ∀ x ∈ [34] ++ a ++ [34] ++ b, x ≠ 0 := by
    intro x hx
    simp only [List.mem_append, List.mem_singleton] at hx
    rcases hx with ((hx | hx) | hx) | hx
    · omega
    · exact (ha x hx).2.2.2
    · omega
    · exact (hb x hx).2.2.2
  unfold parse_field
  rw [cstr_eq_self hz]
  have e1 : [34] ++ a ++ [34] ++ b = (34 :: a) ++ 34 :: b := by simp
  have hstrip : g_strstrip ((34 :: a) ++ 34 :: b) = (34 :: a) ++ 34 :: g_strchomp b := by
    unfold g_strstrip
    have hchug : g_strchug ((34 :: a) ++ 34 :: b) = (34 :: a) ++ 34 :: b := by
      simp [g_strchug, List.dropWhile, g_ascii_isspace]
    rw [hchug]
    unfold g_strchomp
    exact rdropWhile_append_cons_neg _ _ 34 (by decide) b
  rw [e1, hstrip]
  have hpa : ∀ x ∈ a, x ≠ 92 ∧ x ≠ 34 ∧ x ≠ 13 := fun x hx =>
    ⟨(ha x hx).2.1, (ha x hx).1, (ha x hx).2.2.1⟩
  have hpb : ∀ x ∈ g_strchomp b, x ≠ 92 ∧ x ≠ 34 ∧ x ≠ 13 := fun x hx =>
    have hm := hb x ((List.rdropWhile_prefix g_ascii_isspace _).subset hx)
    ⟨hm.2.1, hm.1, hm.2.2.1⟩
  rw [List.cons_append, parse_field_loop_normal_quote,
    parse_field_loop_quoted_append _ _ _ hpa]
  simp only [parse_field_loop, if_true, if_false, show ¬ ((34 : Nat) = 92) by decide]
  rw [parse_field_loop_quote1_plain _ _ hpb]
  simp

/-- C24, as stated, fails when white space is space, TAB, LF, VT, FF and CR:
with the delimiter `,` the stream quote, `a`, quote, `b`, VT, LF gives the
single field `ab` VT, where the claim gives `ab`. -/
theorem text_after_quote_vertical_tab_kept :
    parse_line (some ([34] ++ [97] ++ [34] ++ [98, 11] ++ 10 :: [])) 44 =
      ([[97, 98, 11]], some []) ∧
    [97] ++ rstrip_isspace_c [98, 11] = [97, 98] ∧
    (parse_line (some ([34] ++ [97] ++ [34] ++ [98, 11] ++ 10 :: [])) 44).1 ≠
      [[97] ++ rstrip_isspace_c [98, 11]] := by
  decide

/-- C24, amended: for every delimiter `d` other than the double-quote and LF
and all strings `a`, `b` without double-quote, backslash, CR, LF, NUL and `d`,
the stream quote, `a`, quote, `b`, LF gives the single field made of `a` as it
is followed by `b` without its trailing white space, which is that of
`g_strstrip` (space, TAB, LF, FF and CR). -/
theorem text_after_closing_quote (d : Nat) (a b rest : List Nat) (hd : d ≠ 34 ∧ d ≠ 10)
    (ha : ∀ x ∈ a, x ≠ 34 ∧ x ≠ 92 ∧ x ≠ 13 ∧ x ≠ 10 ∧ x ≠ 0 ∧ x ≠ d)
    (hb : ∀ x ∈ b, x ≠ 34 ∧ x ≠ 92 ∧ x ≠ 13 ∧ x ≠ 10 ∧ x ≠ 0 ∧ x ≠ d) :
    parse_line (some ([34] ++ a ++ [34] ++ b ++ 10 :: rest)) d =
      ([a ++ g_strchomp b], some rest) := by
  have h34 : ¬ (34 = d) := fun h => hd.1 h.symm
  have hpf := parse_field_quoted_then_plain a b
    (fun x hx => ⟨(ha x hx).1, (ha x hx).2.1, (ha x hx).2.2.1, (ha x hx).2.2.2.2.1⟩)
    (fun x hx => ⟨(hb x hx).1, (hb x hx).2.1, (hb x hx).2.2.1, (hb x hx).2.2.2.2.1⟩)
  have e : [34] ++ a ++ [34] ++ b ++ 10 :: rest = 34 :: (a ++ (34 :: (b ++ 10 :: rest))) := by
    simp
  unfold parse_line
  simp only
  rw [e]
  simp only [parse_line_loop, h34, if_false, if_true]
  rw [parse_line_loop_quoted_plain d _ a _ _ (fun x hx => ⟨(ha x hx).1, (ha x hx).2.1⟩)]
  simp only [parse_line_loop, if_true]
  rw [parse_line_loop_quote1_plain d rest hd.2 _ _ b
    (fun x hx => ⟨(hb x hx).2.2.2.2.2, (hb x hx).1, (hb x hx).2.1, (hb x hx).2.2.2.1⟩)]
  have e2 : [] ++ [34] ++ a ++ [34] ++ b = [34] ++ a ++ [34] ++ b := by simp
  rw [e2, hpf]
  simp

/-- C24, witness: with the delimiter `,` the stream `" a "` followed by
` b ` and LF gives the field ` a  b`. -/
theorem text_after_closing_quote_witness :
    parse_line (some ([34] ++ [32, 97, 32] ++ [34] ++ [32, 98, 32] ++ 10 :: [])) 44 =
      ([[32, 97, 32] ++ g_strchomp [32, 98, 32]], some []) :=
  text_after_closing_quote 44 [32, 97, 32] [32, 98, 32] [] (by decide) (by decide) (by decide)

theorem parse_field_open_quote (s : List Nat)
    (hs : ∀ x ∈ s, x ≠ 34 ∧ x ≠ 92 ∧ x ≠ 13 ∧ x ≠ 0) :
    parse_field (34 :: s) = g_strchomp s := by
  have hz : ∀ x ∈ 34 :: s, x ≠ 0 := by
    intro x hx
    rcases List.mem_cons.1 hx with hx | hx
    · omega
    · exact (hs x hx).2.2.2
  unfold parse_field
  rw [cstr_eq_self hz]
  have hstrip : g_strstrip (34 :: s) = 34 :: g_strchomp s := by
    unfold g_strstrip
    have hchug : g_strchug (34 :: s) = 34 :: s := by
      simp [g_strchug, List.dropWhile, g_ascii_isspace]
    rw [hchug]
    unfold g_strchomp
    exact rdropWhile_append_cons_neg _ [] 34 (by decide) s
  rw [hstrip, parse_field_loop_normal_quote]
  have hp : ∀ x ∈ g_strchomp s, x ≠ 92 ∧ x ≠ 34 ∧ x ≠ 13 := fun x hx =>
    have hm := hs x ((List.rdropWhile_prefix g_ascii_isspace _).subset hx)
    ⟨hm.2.1, hm.1, hm.2.2.1⟩
  have := parse_field_loop_quoted_append (g_strchomp s) [] [] hp
  simpa [parse_field_loop_nil] using this

/-- C25, as stated, fails when white space is space, TAB, LF, VT, FF and CR:
with the delimiter `,` the stream quote, `a`, VT ending there gives the single
field `a` VT, where the claim gives `a`. -/
theorem unterminated_quote_vertical_tab_kept :
    parse_line (some ([34] ++ [97, 11])) 44 = ([[97, 11]], some []) ∧
    rstrip_isspace_c [97, 11] = [97] ∧
    (parse_line (some ([34] ++ [97, 11])) 44).1 ≠ [rstrip_isspace_c [97, 11]] := by
  decide

/-- C25, amended: for every delimiter other than the double-quote and every
string `s` without double-quote, backslash, CR and NUL, the stream made of a
quote and `s` and ending there gives the single field `s` without its trailing
white space, which is that of `g_strstrip` (space, TAB, LF, FF and CR), and is
read to its end; the next call returns the empty list. -/
theorem unterminated_quote_at_eof (d : Nat) (s : List Nat) (hd : d ≠ 34)
    (hs : ∀ x ∈ s, x ≠ 34 ∧ x ≠ 92 ∧ x ≠ 13 ∧ x ≠ 0) :
    parse_line (some ([34] ++ s)) d = ([g_strchomp s], some []) ∧
    parse_line (parse_line (some ([34] ++ s)) d).2 d = ([], some []) := by
  have h34 : ¬ (34 = d) := fun h => hd h.symm
  have h1 : parse_line (some ([34] ++ s)) d = ([g_strchomp s], some []) := by
    have hstep : parse_line_loop d .BEGIN [] [] (34 :: s) =
        parse_line_loop d .QUOTED [34] [] s := by
      simp [parse_line_loop, h34]
    have hq := parse_line_loop_quoted_plain d [] s [34] []
      (fun x hx => ⟨(hs x hx).1, (hs x hx).2.1⟩)
    simp only [List.append_nil, List.singleton_append] at hq
    unfold parse_line
    simp only
    rw [List.singleton_append, hstep, hq]
    simp [parse_line_loop, parse_field_open_quote s hs]
  refine ⟨h1, ?_⟩
  rw [h1]
  rfl

/-- C25, witness: with the delimiter `,` the stream `"a,b` LF ` ` gives the
field `a,b`. -/
theorem unterminated_quote_at_eof_witness :
    parse_line (some ([34] ++ [97, 44, 98, 10, 32])) 44 =
      ([g_strchomp [97, 44, 98, 10, 32]], some []) ∧
    g_strchomp [97, 44, 98, 10, 32] = [97, 44, 98] :=
  ⟨(unterminated_quote_at_eof 44 [97, 44, 98, 10, 32] (by decide) (by decide)).1, by decide⟩

theorem snoc_last_cons (x : Nat) (p : List Nat) (l : List (List Nat)) (hl : l ≠ []) :
    snoc_last x (p :: l) = p :: snoc_last x l := by
  cases l with
  | nil => exact absurd rfl hl
  | cons q qs => rfl

theorem modifyHead_snoc_last (x y : Nat) (l : List (List Nat)) :
    (snoc_last x l).modifyHead (List.cons y) = snoc_last x (l.modifyHead (List.cons y)) := by
  cases l with
  | nil => rfl
  | cons p ps =>
    cases ps with
    | nil => rfl
    | cons q qs => rfl

theorem splitOn_concat (d x : Nat) (hx : x ≠ d) (r : List Nat) :
    (r ++ [x]).splitOn d = snoc_last x (r.splitOn d) := by
  have hxb : (x == d) = false := by simpa using hx
  induction r with
  | nil =>
    simp [List.splitOn, List.splitOnP_cons, List.splitOnP_nil, hxb, snoc_last]
  | cons y ys ih =>
    simp only [List.splitOn] at ih ⊢
    rw [List.cons_append, List.splitOnP_cons, List.splitOnP_cons, ih]
    by_cases hy : (y == d) = true
    · simp only [hy, if_true]
      rw [snoc_last_cons _ _ _ (List.splitOnP_ne_nil _ _)]
    · simp only [hy, Bool.false_eq_true, if_false]
      exact modifyHead_snoc_last x y _

theorem map_parse_field_snoc_last_cr (l : List (List Nat)) :
    (snoc_last 13 l).map parse_field = l.map parse_field := by
  induction l with
  | nil => rfl
  | cons p ps ih =>
    cases ps with
    | nil => simp [snoc_last, parse_field_concat_cr]
    | cons q qs =>
      rw [snoc_last_cons _ _ _ (by simp), List.map_cons, ih]
      rfl

/-- C26: for every delimiter `d` other than CR and LF and every row `r`
without double-quote, backslash and LF, `parse_line` returns on `r`, CR, LF
the fields it returns on `r`, LF, and leaves the same stream; an empty line
ended by CR, LF gives one empty field. -/
theorem crlf_equals_lf (d : Nat) (r rest : List Nat) (hd : d ≠ 13 ∧ d ≠ 10)
    (hr : ∀ x ∈ r, x ≠ 34 ∧ x ≠ 92 ∧ x ≠ 10) :
    parse_line (some (r ++ 13 :: 10 :: rest)) d = parse_line (some (r ++ 10 :: rest)) d ∧
    parse_line (some (13 :: 10 :: rest)) d = ([[]], some rest) := by
  have key : ∀ r : List Nat, (∀ x ∈ r, x ≠ 34 ∧ x ≠ 92 ∧ x ≠ 10) →
      parse_line (some (r ++ 13 :: 10 :: rest)) d = parse_line (some (r ++ 10 :: rest)) d := by
    intro r hr
    have hr2 : ∀ x ∈ r ++ [13], x ≠ 34 ∧ x ≠ 92 ∧ x ≠ 10 := by
      intro x hx
      rcases List.mem_append.1 hx with hx | hx
      · exact hr x hx
      · simp only [List.mem_singleton] at hx
        subst hx
        decide
    have e : r ++ 13 :: 10 :: rest = (r ++ [13]) ++ 10 :: rest := by simp
    unfold parse_line
    simp only
    rw [e, parse_line_loop_begin_row d rest hd.2 _ hr2, parse_line_loop_begin_row d rest hd.2 r hr,
      splitOn_concat d 13 (fun h => hd.1 h.symm) r, map_parse_field_snoc_last_cr]
  refine ⟨key r hr, ?_⟩
  have h := key [] (by simp)
  have h10 : ¬ (10 = d) := fun h => hd.2 h.symm
  simp only [List.nil_append] at h
  rw [h]
  simp [parse_line, parse_line_loop, h10]

/-- C26, witness: with the delimiter `,` the row `a, b` ended by CR, LF gives
the fields `a` and `b`. -/
theorem crlf_equals_lf_witness :
    parse_line (some ([97, 44, 32, 98] ++ 13 :: 10 :: [120])) 44 =
      parse_line (some ([97, 44, 32, 98] ++ 10 :: [120])) 44 ∧
    parse_line (some ([97, 44, 32, 98] ++ 13 :: 10 :: [120])) 44 =
      ([[97], [98]], some [120]) :=
  ⟨(crlf_equals_lf 44 [97, 44, 32, 98] [120] (by decide) (by decide)).1, by decide⟩

end MergeText

namespace Postnet

/-! ## The POSTNET code string -/

theorem first_digits_nil (n : Nat) : first_digits n [] = [] := by
  simp [first_digits]

theorem first_digits_zero (p : List Nat) : first_digits 0 p = [] := by
  simp [first_digits]

theorem first_digits_cons_nul (n : Nat) (p : List Nat) : first_digits n (0 :: p) = [] := by
  simp [first_digits, List.takeWhile_cons]

theorem first_digits_cons_digit (n c : Nat) (p : List Nat) (hc : c ≠ 0)
    (hd : isdigit c = true) :
    first_digits (n + 1) (c :: p) = (c - 48) :: first_digits n p := by
  have hcb : (c != 0) = true := by simpa using hc
  simp [first_digits, List.takeWhile_cons, hcb, List.filter_cons, hd]

theorem first_digits_cons_skip (n c : Nat) (p : List Nat) (hc : c ≠ 0)
    (hd : isdigit c = false) :
    first_digits n (c :: p) = first_digits n p := by
  have hcb : (c != 0) = true := by simpa using hc
  simp [first_digits, List.takeWhile_cons, hcb, List.filter_cons, hd]

theorem digit_symbols_cons (d : Nat) (ds : List Nat) :
    digit_symbols (d :: ds) = symbols.getD d [] ++ digit_symbols ds := by
  simp [digit_symbols]

theorem postnet_code_loop_eq (p : List Nat) :
    ∀ len sum code, len ≤ 11 →
      postnet_code_loop p len sum code =
        (len + (first_digits (11 - len) p).length,
          sum + (first_digits (11 - len) p).sum,
          code ++ digit_symbols (first_digits (11 - len) p)) := by
  induction p with
  | nil =>
    intro len sum code _
    simp [postnet_code_loop, first_digits_nil, digit_symbols]
  | cons c p ih =>
    intro len sum code hlen
    unfold postnet_code_loop
    by_cases hc : c = 0
    · subst hc
      simp [first_digits_cons_nul, digit_symbols]
    · by_cases hl : len < 11
      · obtain ⟨m, hm⟩ : ∃ m, 11 - len = m + 1 := ⟨10 - len, by omega⟩
        have hm2 : 11 - (len + 1) = m := by omega
        by_cases hd : isdigit c = true
        · simp only [hc, hl, hd, ne_eq, not_false_eq_true, and_self, if_true]
          rw [ih (len + 1) _ _ (by omega), hm2, hm, first_digits_cons_digit m c p hc hd,
            digit_symbols_cons]
          simp only [List.length_cons, List.sum_cons, List.append_assoc]
          refine Prod.ext (by simp; omega) (Prod.ext (by simp; omega) rfl)
        · have hd2 : isdigit c = false := by simpa using hd
          simp only [hc, hl, hd2, ne_eq, not_false_eq_true, and_self, if_true,
            Bool.false_eq_true, if_false]
          rw [ih len _ _ hlen, first_digits_cons_skip _ c p hc hd2]
      · have h11 : 11 - len = 0 := by omega
        simp [hl, h11, first_digits_zero, digit_symbols]

theorem first_digits_le_nine (n : Nat) (p : List Nat) : ∀ d ∈ first_digits n p, d ≤ 9 := by
  intro d hd
  simp only [first_digits, List.mem_map] at hd
  obtain ⟨c, hc, rfl⟩ := hd
  have hc2 := (List.mem_filter.1 (List.mem_of_mem_take hc)).2
  simp only [isdigit, Bool.and_eq_true, decide_eq_true_eq] at hc2
  omega

theorem symbol_length : ∀ d, d ≤ 9 → (symbols.getD d []).length = 5 := by
  intro d hd
  interval_cases d <;> rfl

theorem symbol_count_one : ∀ d, d ≤ 9 → (symbols.getD d []).count 49 = 2 := by
  intro d hd
  interval_cases d <;> decide

theorem symbol_count_zero : ∀ d, d ≤ 9 → (symbols.getD d []).count 48 = 3 := by
  intro d hd
  interval_cases d <;> decide

theorem symbol_chars : ∀ d, ∀ c ∈ symbols.getD d [], c = 48 ∨ c = 49 := by
  intro d c hc
  by_cases hd : d ≤ 9
  · interval_cases d <;> revert c <;> decide
  · have : symbols.getD d [] = [] := by
      have hlen : symbols.length ≤ d := by
        have : symbols.length = 10 := rfl
        omega
      simp [List.getD_eq_getElem?_getD, List.getElem?_eq_none hlen]
    rw [this] at hc
    exact absurd hc (List.not_mem_nil _)

theorem symbols_injective :
    ∀ i j, i < 10 → j < 10 → symbols.getD i [] = symbols.getD j [] → i = j := by
  intro i j hi hj h
  interval_cases i <;> interval_cases j <;>
    first
    | rfl
    | exact absurd h (by decide)

theorem digit_symbols_length (ds : List Nat) (h : ∀ d ∈ ds, d ≤ 9) :
    (digit_symbols ds).length = 5 * ds.length := by
  induction ds with
  | nil => rfl
  | cons d ds ih =>
    rw [digit_symbols_cons, List.length_append, symbol_length d (h d (List.mem_cons_self _ _)),
      ih (fun x hx => h x (List.mem_cons_of_mem _ hx)), List.length_cons]
    omega

theorem digit_symbols_count_one (ds : List Nat) (h : ∀ d ∈ ds, d ≤ 9) :
    (digit_symbols ds).count 49 = 2 * ds.length := by
  induction ds with
  | nil => rfl
  | cons d ds ih =>
    rw [digit_symbols_cons, List.count_append,
      symbol_count_one d (h d (List.mem_cons_self _ _)),
      ih (fun x hx => h x (List.mem_cons_of_mem _ hx)), List.length_cons]
    omega

theorem digit_symbols_count_zero (ds : List Nat) (h : ∀ d ∈ ds, d ≤ 9) :
    (digit_symbols ds).count 48 = 3 * ds.length := by
  induction ds with
  | nil => rfl
  | cons d ds ih =>
    rw [digit_symbols_cons, List.count_append,
      symbol_count_zero d (h d (List.mem_cons_self _ _)),
      ih (fun x hx => h x (List.mem_cons_of_mem _ hx)), List.length_cons]
    omega

theorem digit_symbols_chars (ds : List Nat) : ∀ c ∈ digit_symbols ds, c = 48 ∨ c = 49 := by
  induction ds with
  | nil => intro c hc; simp [digit_symbols] at hc
  | cons d ds ih =>
    intro c hc
    rw [digit_symbols_cons] at hc
    rcases List.mem_append.1 hc with hc | hc
    · exact symbol_chars d c hc
    · exact ih c hc

theorem postnet_correction_eq (digits : List Nat) :
    postnet_correction digits = (10 - (first_digits 11 digits).sum % 10) % 10 := by
  unfold postnet_correction
  rw [postnet_code_loop_eq digits 0 0 frame_symbol (by omega)]
  simp

theorem postnet_code_eq (digits : List Nat) :
    postnet_code digits =
      frame_symbol ++ digit_symbols (first_digits 11 digits) ++
        symbols.getD (postnet_correction digits) [] ++ frame_symbol := by
  unfold postnet_code
  rw [postnet_code_loop_eq digits 0 0 frame_symbol (by omega)]

theorem postnet_code_chars (digits : List Nat) : ∀ c ∈ postnet_code digits, c = 48 ∨ c = 49 := by
  intro c hc
  rw [postnet_code_eq] at hc
  simp only [List.mem_append, frame_symbol, List.mem_singleton] at hc
  rcases hc with ((hc | hc) | hc) | hc
  · exact Or.inr hc
  · exact digit_symbols_chars _ c hc
  · exact symbol_chars _ c hc
  · exact Or.inr hc

theorem postnet_lines_loop_length (p : List Nat) :
    ∀ (x : ℚ) (lines : List glBarcodeLine), (∀ c ∈ p, c ≠ 0) →
      (postnet_lines_loop p x lines).1.length = lines.length + p.length := by
  induction p with
  | nil => intro x lines _; simp [postnet_lines_loop]
  | cons c p ih =>
    intro x lines h
    have hc := h c (List.mem_cons_self _ _)
    simp only [postnet_lines_loop, hc, if_false]
    rw [ih _ _ (fun y hy => h y (List.mem_cons_of_mem _ hy))]
    simp
    omega

/-- C28: with `ds` the values of the first at most 11 decimal digits of the
input, the other characters skipped, the correction digit of `postnet_code` is
`(10 - (sum ds mod 10)) mod 10`; it is at most 9 and makes the sum a multiple
of ten, and it and every digit value are indices within the table
`symbols`. -/
theorem postnet_check_digit (digits : List Nat) :
    postnet_correction digits = (10 - (first_digits 11 digits).sum % 10) % 10 ∧
    postnet_correction digits ≤ 9 ∧
    ((first_digits 11 digits).sum + postnet_correction digits) % 10 = 0 ∧
    postnet_correction digits < symbols.length ∧
    (∀ d ∈ first_digits 11 digits, d < symbols.length) := by
  have h := postnet_correction_eq digits
  have hlen : symbols.length = 10 := rfl
  refine ⟨h, by omega, by omega, by omega, ?_⟩
  intro d hd
  have := first_digits_le_nine 11 digits d hd
  omega

/-- C29: for every input string `postnet_code` returns the frame bar, the
symbols of the first at most 11 digits of the input in order, the symbol of
the correction digit and the frame bar; each of these symbols has five
characters, the string has `5 * n + 7` characters, `n` being the smaller of 11
and the number of digits of the input, and `gl_barcode_postnet_new` returns a
barcode with one line per character of that string. -/
theorem postnet_code_string (digits : List Nat) :
    postnet_code digits =
      [49] ++ digit_symbols (first_digits 11 digits) ++
        symbols.getD (postnet_correction digits) [] ++ [49] ∧
    (∀ d ∈ first_digits 11 digits, (symbols.getD d []).length = 5) ∧
    (symbols.getD (postnet_correction digits) []).length = 5 ∧
    (first_digits 11 digits).length =
      min 11 ((digits.takeWhile (fun c => c != 0)).filter isdigit).length ∧
    (postnet_code digits).length = 5 * (first_digits 11 digits).length + 7 ∧
    (∃ gbc, gl_barcode_postnet_new digits = some gbc ∧
      gbc.lines.length = (postnet_code digits).length) := by
  have h9 := first_digits_le_nine 11 digits
  have hk : postnet_correction digits ≤ 9 := by
    rw [postnet_correction_eq]; omega
  refine ⟨postnet_code_eq digits, fun d hd => symbol_length d (h9 d hd), symbol_length _ hk,
    ?_, ?_, ?_⟩
  · simp [first_digits, List.length_take]
  · rw [postnet_code_eq]
    simp only [List.length_append, frame_symbol, List.length_singleton,
      digit_symbols_length _ h9, symbol_length _ hk]
    omega
  · refine ⟨_, rfl, ?_⟩
    simp only
    rw [postnet_lines_loop_length _ _ _ (fun c hc => by
      rcases postnet_code_chars digits c hc with h | h <;> omega)]
    simp

/-- C30: every symbol of the table has two `1` and three `0`, the ten symbols
are pairwise distinct, and for every input the string of `postnet_code` holds
`2 * (n + 1) + 2` characters `1` and `3 * (n + 1)` characters `0`, `n` being
the number of digits encoded. -/
theorem postnet_two_of_five (digits : List Nat) :
    symbols.length = 10 ∧
    (∀ s ∈ symbols, s.count 49 = 2 ∧ s.count 48 = 3 ∧ s.length = 5) ∧
    symbols.Nodup ∧
    (∀ i j, i < 10 → j < 10 → symbols.getD i [] = symbols.getD j [] → i = j) ∧
    (postnet_code digits).count 49 = 2 * ((first_digits 11 digits).length + 1) + 2 ∧
    (postnet_code digits).count 48 = 3 * ((first_digits 11 digits).length + 1) := by
  have h9 := first_digits_le_nine 11 digits
  have hk : postnet_correction digits ≤ 9 := by
    rw [postnet_correction_eq]; omega
  refine ⟨rfl, by decide, by decide, symbols_injective, ?_, ?_⟩
  · rw [postnet_code_eq]
    simp only [List.count_append, frame_symbol, digit_symbols_count_one _ h9,
      symbol_count_one _ hk]
    simp
    omega
  · rw [postnet_code_eq]
    simp only [List.count_append, frame_symbol, digit_symbols_count_zero _ h9,
      symbol_count_zero _ hk]
    simp
    omega

/-! ## The geometry of the bars -/

theorem postnet_lines_loop_eq (p : List Nat) :
    ∀ (x : ℚ) (lines : List glBarcodeLine), (∀ c ∈ p, c ≠ 0) →
      postnet_lines_loop p x lines =
        (lines ++ postnet_lines_from p x, x + POSTNET_BAR_PITCH * p.length) := by
  induction p with
  | nil => intro x lines _; simp [postnet_lines_loop, postnet_lines_from]
  | cons c p ih =>
    intro x lines h
    have hc := h c (List.mem_cons_self _ _)
    simp only [postnet_lines_loop, hc, if_false]
    rw [ih _ _ (fun y hy => h y (List.mem_cons_of_mem _ hy))]
    refine Prod.ext ?_ ?_
    · simp [postnet_lines_from, postnet_line]
    · simp only [List.length_cons]
      push_cast
      ring

theorem postnet_lines_from_length (p : List Nat) :
    ∀ x : ℚ, (postnet_lines_from p x).length = p.length := by
  induction p with
  | nil => intro x; rfl
  | cons c p ih => intro x; simp [postnet_lines_from, ih]

theorem postnet_lines_from_get (p : List Nat) :
    ∀ (x : ℚ) (i : Nat) (line : glBarcodeLine),
      (postnet_lines_from p x)[i]? = some line →
      ∃ c, p[i]? = some c ∧ line = postnet_line c (x + POSTNET_BAR_PITCH * i) := by
  induction p with
  | nil => intro x i line h; simp [postnet_lines_from] at h
  | cons c p ih =>
    intro x i line h
    cases i with
    | zero =>
      simp only [postnet_lines_from, List.getElem?_cons_zero, Option.some.injEq] at h
      exact ⟨c, by simp, by rw [← h]; simp⟩
    | succ i =>
      simp only [postnet_lines_from, List.getElem?_cons_succ] at h
      obtain ⟨c1, h1, h2⟩ := ih _ i line h
      refine ⟨c1, by simpa using h1, ?_⟩
      rw [h2]
      congr 1
      push_cast
      ring

theorem postnet_line_geometry (c : Nat) (x : ℚ) :
    (postnet_line c x).x = x ∧ (postnet_line c x).width = 1.25 ∧
    (c = 48 → (postnet_line c x).y = 8.5 ∧ (postnet_line c x).length = 3.5) ∧
    (c ≠ 48 → (postnet_line c x).y = 3 ∧ (postnet_line c x).length = 9) ∧
    (postnet_line c x).y + (postnet_line c x).length = 12 := by
  unfold postnet_line
  by_cases hc : c = 48
  · simp only [hc, if_true, POSTNET_VERT_MARGIN, POSTNET_FULLBAR_HEIGHT,
      POSTNET_HALFBAR_HEIGHT, POSTNET_BAR_WIDTH]
    norm_num
  · simp only [hc, if_false, POSTNET_VERT_MARGIN, POSTNET_FULLBAR_HEIGHT,
      POSTNET_BAR_WIDTH]
    norm_num

/-- C31: for every input `gl_barcode_postnet_new` returns a barcode with one
line per character of the code string; the line of index `i` has
`x = 9 + 3.25 * i` and the width `1.25`, with `y = 3` and the length `9` for a
`1`, `y = 8.5` and the length `3.5` for a `0`, so that `y + length = 12` for
every line; the barcode is `18 + 3.25 * m` wide for `m` lines and `15`
high. -/
theorem postnet_bar_geometry (digits : List Nat) :
    ∃ gbc, gl_barcode_postnet_new digits = some gbc ∧
      gbc.lines.length = (postnet_code digits).length ∧
      gbc.width = 18 + 3.25 * (gbc.lines.length : ℚ) ∧
      gbc.height = 15 ∧
      ∀ (i : Nat) (line : glBarcodeLine), gbc.lines[i]? = some line →
        ∃ c, (postnet_code digits)[i]? = some c ∧ (c = 48 ∨ c = 49) ∧
          line.x = 9 + 3.25 * (i : ℚ) ∧ line.width = 1.25 ∧
          (c = 49 → line.y = 3 ∧ line.length = 9) ∧
          (c = 48 → line.y = 8.5 ∧ line.length = 3.5) ∧
          line.y + line.length = 12 := by
  have hnz : ∀ c ∈ postnet_code digits, c ≠ 0 := fun c hc => by
    rcases postnet_code_chars digits c hc with h | h <;> omega
  have hloop := postnet_lines_loop_eq (postnet_code digits) POSTNET_HORIZ_MARGIN [] hnz
  rw [List.nil_append] at hloop
  refine ⟨_, rfl, ?_, ?_, ?_, ?_⟩
  · show (postnet_lines_loop (postnet_code digits) POSTNET_HORIZ_MARGIN []).1.length = _
    rw [hloop, postnet_lines_from_length]
  · show (postnet_lines_loop (postnet_code digits) POSTNET_HORIZ_MARGIN []).2 +
        POSTNET_HORIZ_MARGIN =
      18 + 3.25 *
        ((postnet_lines_loop (postnet_code digits) POSTNET_HORIZ_MARGIN []).1.length : ℚ)
    rw [hloop]
    simp only [postnet_lines_from_length, POSTNET_HORIZ_MARGIN, POSTNET_BAR_PITCH]
    norm_num
    ring
  · show POSTNET_FULLBAR_HEIGHT + 2 * POSTNET_VERT_MARGIN = 15
    simp only [POSTNET_FULLBAR_HEIGHT, POSTNET_VERT_MARGIN]
    norm_num
  · intro i line hline
    change (postnet_lines_loop (postnet_code digits) POSTNET_HORIZ_MARGIN []).1[i]? =
      some line at hline
    rw [hloop] at hline
    obtain ⟨c, hc, hl⟩ := postnet_lines_from_get _ _ i line hline
    have hmem : c ∈ postnet_code digits := List.mem_iff_getElem?.2 ⟨i, hc⟩
    have hchar := postnet_code_chars digits c hmem
    have hg := postnet_line_geometry c (POSTNET_HORIZ_MARGIN + POSTNET_BAR_PITCH * i)
    rw [← hl] at hg
    refine ⟨c, hc, hchar, ?_, hg.2.1, ?_, hg.2.2.1, hg.2.2.2.2⟩
    · rw [hg.1]
      simp only [POSTNET_HORIZ_MARGIN, POSTNET_BAR_PITCH]
      norm_num
    · intro h49
      exact hg.2.2.2.1 (by omega)

/-- C31, witness: for the input `9` the barcode has twelve lines, it is 57
wide and 15 high, and its first line, the frame bar, is at `x = 9` with
`y = 3` and the length 9. -/
theorem postnet_bar_geometry_witness :
    ∃ (gbc : glBarcode) (line : glBarcodeLine), gl_barcode_postnet_new [57] = some gbc ∧
      gbc.lines.length = 12 ∧ gbc.width = 57 ∧ gbc.height = 15 ∧
      gbc.lines[0]? = some line ∧ line.x = 9 ∧ line.y = 3 ∧ line.length = 9 ∧
      line.width = (1.25 : ℚ) := by
  obtain ⟨gbc, h1, h2, h3, h4, h5⟩ := postnet_bar_geometry [57]
  have hlen : (postnet_code [57]).length = 12 := by decide
  have h0 : 0 < gbc.lines.length := by rw [h2, hlen]; decide
  obtain ⟨c, hc, _, hx, hw, hy, _, _⟩ := h5 0 (gbc.lines[0]) (List.getElem?_eq_getElem h0)
  have hc49 : c = 49 := by
    have : (postnet_code [57])[0]? = some 49 := by decide
    rw [this] at hc
    exact (Option.some.inj hc).symm
  refine ⟨gbc, gbc.lines[0], h1, by rw [h2, hlen], ?_, h4, List.getElem?_eq_getElem h0, ?_,
    (hy hc49).1, (hy hc49).2, hw⟩
  · rw [h3, h2, hlen]; norm_num
  · rw [hx]; norm_num

end Postnet
